import Mathlib

/-!
Verification of the EllipticiPy ellipticity-correction engine.

The development shallowly embeds the two source variants,
`src/ellipticipy/tools.py` (namespace `Ipy`) and
`src/ellipticity/tools.py` (namespace `Ity`), over the real numbers.
Collaborator queries declared external by the design (the layered
velocity/density model's `evaluate_above` / `evaluate_below` /
derivative queries and the ray tracer) are fields of a model structure;
everything else is translated from the source.

`np.sqrt` applied to a negative float returns NaN; where that
distinction matters the computation is modelled as `Option ℝ`
(`none` = NaN).  Where the source clamps the argument first
(`np.sqrt(y * (y > 0))`) the total real embedding is faithful.
-/

namespace Ipy

/-- Universal gravitational constant, m^3 kg^-1 s^-2 (module constant `G`). -/
noncomputable def gConst : ℝ := 6.67408e-11

/-- Length of day of Earth in seconds (module constant `EARTH_LOD`). -/
noncomputable def earthLod : ℝ := 86164.0905

/-- `np.radians`: degrees to radians. -/
noncomputable def radians (x : ℝ) : ℝ := x * (Real.pi / 180)

/-- The Schmidt semi-normalisation prefactor of `weighted_alp2`:
`sqrt((2 - kronecker_0m) * (factorial(2 - m) / factorial(2 + m)))`. -/
noncomputable def alpNorm (m : ℕ) : ℝ :=
  Real.sqrt ((2 - (if m = 0 then (1 : ℝ) else 0)) *
    ((Nat.factorial (2 - m) : ℝ) / (Nat.factorial (2 + m) : ℝ)))

/-- The value returned by `weighted_alp2` on its valid orders `m ∈ {0,1,2}`
(junk value 0 outside; the raising behaviour is in `weighted_alp2`). -/
noncomputable def walpVal (m : ℕ) (θ : ℝ) : ℝ :=
  if m = 0 then alpNorm 0 * (0.5 * (3 * Real.cos θ ^ 2 - 1))
  else if m = 1 then alpNorm 1 * (3 * Real.cos θ * Real.sin θ)
  else if m = 2 then alpNorm 2 * (3 * Real.sin θ ^ 2)
  else 0

/-- `weighted_alp2(m, theta)`: the weighted degree 2 associated Legendre
polynomial.  The `ValueError` raised for `m ∉ {0,1,2}` (either directly or
through `factorial` of a negative number) is modelled as `none`. -/
noncomputable def weighted_alp2 (m : ℤ) (θ : ℝ) : Option ℝ :=
  if m = 0 ∨ m = 1 ∨ m = 2 then some (walpVal m.toNat θ) else none

/-- `correction_from_coefficients(coefficients, azimuth, source_latitude)`:
`colatitude = radians(90 - source_latitude)`, `azimuth` converted to radians,
then `sum(coefficients[m] * weighted_alp2(m, colatitude) * cos(m * azimuth)
for m in [0, 1, 2])`. -/
noncomputable def correction_from_coefficients
    (coefficients : List ℝ) (azimuth source_latitude : ℝ) : ℝ :=
  let colatitude := radians (90 - source_latitude)
  let az := radians azimuth
  (([0, 1, 2] : List ℕ).map (fun m =>
    coefficients.getD m 0 * (weighted_alp2 m colatitude).getD 0 *
      Real.cos (m * az))).sum

/-- The correction formula exactly as the specification words it:
`Σ_{m=0,1,2} coeff[m] · WeightedLegendre(m, colatitude) · cos(m·azimuth_radians)`
with `colatitude = π/2 − latitude_radians`. -/
noncomputable def correctionSpec
    (coefficients : List ℝ) (azimuth source_latitude : ℝ) : ℝ :=
  (([0, 1, 2] : List ℕ).map (fun m =>
    coefficients.getD m 0 * walpVal m (Real.pi / 2 - radians source_latitude) *
      Real.cos (m * radians azimuth))).sum

/-- The repeated source idiom `np.sqrt(y * (y > 0))`: the argument is clamped
to zero before the square root (a boolean multiplies as 0 or 1 in numpy). -/
noncomputable def np_sqrt_clamped (y : ℝ) : ℝ :=
  Real.sqrt (y * (if 0 < y then 1 else 0))

/-- `np.sqrt` with IEEE semantics: NaN (modelled as `none`) on a negative
argument, `sqrt` otherwise. -/
noncomputable def npSqrt (y : ℝ) : Option ℝ :=
  if y < 0 then none else some (Real.sqrt y)

/-- One point of a traced ray path: ray parameter, cumulative travel time,
angular distance (radians) and depth (km), as in the obspy path records. -/
structure PathPoint where
  p : ℝ
  time : ℝ
  dist : ℝ
  depth : ℝ

/-- Default point used for out-of-range indexing (the source would raise). -/
def dp : PathPoint := ⟨0, 0, 0, 0⟩

/-- Wave-type tag assigned by `classify_path`: "p", "s" or "diff". -/
inductive SegKind
  | p
  | s
  | diff
deriving DecidableEq

/-- The velocity-model collaborator (`model.s_mod.v_mod` plus the constants
read off `model`).  `evaluate_below/above` and the layer-derivative queries
are the external layered-model interface; `discs` is
`get_discontinuity_depths()[:-1]`; `getEps` is the epsilon sampler
`get_epsilon(model, depth)` reading the cached profile (spec §4.3, not under
test in any claim). -/
structure VModel where
  radius_of_planet : ℝ
  discs : List ℝ
  evaluate_below : ℝ → SegKind → ℝ
  evaluate_above : ℝ → SegKind → ℝ
  deriv_below : ℝ → SegKind → ℝ
  deriv_above : ℝ → SegKind → ℝ
  getEps : ℝ → ℝ

/-- A TauP arrival as consumed by the coefficient functions: its traced path
and its constant ray parameter. -/
structure ArrivalI where
  path : List PathPoint
  ray_param : ℝ

/-- `expected_delay_time(ray_param, depth0, depth1, wave, model)`:
expected delay time between two depths for a given wave type. -/
noncomputable def expected_delay_time (ray_param depth0 depth1 : ℝ)
    (wave : SegKind) (model : VModel) : ℝ :=
  let radius0 := model.radius_of_planet - depth0
  let radius1 := model.radius_of_planet - depth1
  let v0 := if depth0 ≤ depth1 then model.evaluate_below depth0 wave
            else model.evaluate_above depth0 wave
  let v1 := if depth0 ≤ depth1 then model.evaluate_above depth1 wave
            else model.evaluate_below depth1 wave
  if 0 < v0 then
    let eta0 := radius0 / v0
    let eta1 := radius1 / v1
    let n0 := np_sqrt_clamped (eta0 ^ 2 - ray_param ^ 2)
    let n1 := np_sqrt_clamped (eta1 ^ 2 - ray_param ^ 2)
    if ray_param = 0 then 0.5 * (1 / v0 + 1 / v1) * |radius1 - radius0|
    else 0.5 * (n0 + n1) * |Real.log (radius1 / radius0)|
  else 0

/-- The body of `classify_path` after the two compared points have been
selected: "diff" when they share a depth, else the wave type whose predicted
delay is relative-error-closer to the observed delay
`travel_time - ray_param * distance`. -/
noncomputable def classifyPoints (point0 point1 : PathPoint) (model : VModel) :
    SegKind :=
  let ray_param := point0.p
  if point0.depth = point1.depth then SegKind.diff
  else
    let travel_time := point1.time - point0.time
    let distance := |point0.dist - point1.dist|
    let delay_time := travel_time - ray_param * distance
    let delay_p := expected_delay_time ray_param point0.depth point1.depth
      SegKind.p model
    let delay_s := expected_delay_time ray_param point0.depth point1.depth
      SegKind.s model
    let error_p := delay_p / delay_time - 1
    let error_s := delay_s / delay_time - 1
    if |error_p| < |error_s| then SegKind.p else SegKind.s

/-- `classify_path(path, model)`: the compared points are the first two when
the path starts at its shallow end, else the last two. -/
noncomputable def classify_path (path : List PathPoint) (model : VModel) :
    SegKind :=
  if (path.headD dp).depth < (path.getLastD dp).depth
  then classifyPoints (path.getD 0 dp) (path.getD 1 dp) model
  else classifyPoints (path.getD (path.length - 2) dp) (path.getLastD dp) model

/-- The indices at which `split_ray_path` splits:
`is_disc = np.isin(depths, discs)` with `is_disc[0] = False`,
`idx = np.where(is_disc)[0]`. -/
noncomputable def splitIdx (pts : List PathPoint) (discs : List ℝ) : List ℕ :=
  (List.range pts.length).filter fun i =>
    decide (i ≠ 0 ∧ (pts.getD i dp).depth ∈ discs)

/-- `np.split(full_path, idx)`: chunks `pts[0:i₁], pts[i₁:i₂], …, pts[iₖ:]`. -/
def npSplit : List PathPoint → List ℕ → List (List PathPoint)
  | pts, [] => [pts]
  | pts, i :: rest => pts.take i :: npSplit (pts.drop i) (rest.map fun j => j - i)
termination_by _ idx => idx.length
decreasing_by simp

/-- The segmentation of `split_ray_path` over an arbitrary split-index list:
`dpaths = [np.append(s, splitted[i+1][0]) for i, s in enumerate(splitted[:-1])]`
(each segment, with the first point of the next chunk appended). -/
noncomputable def dpathsIdx (pts : List PathPoint) (idx : List ℕ) :
    List (List PathPoint) :=
  let splitted := npSplit pts idx
  List.zipWith (fun s next => s ++ [next.headD dp]) splitted.dropLast
    splitted.tail

/-- The segmentation step of `split_ray_path`: split at the discontinuity
indices. -/
noncomputable def dpathsOf (pts : List PathPoint) (discs : List ℝ) :
    List (List PathPoint) :=
  dpathsIdx pts (splitIdx pts discs)

/-- The contiguous slice of a path from index `a` to index `b`, both
included: the points a segment of `split_ray_path` consists of. -/
def seg (pts : List PathPoint) (a b : ℕ) : List PathPoint :=
  (pts.drop a).take (b + 1 - a)

/-- `split_ray_path(arrival, model)`: split the path at discontinuity depths,
classify each segment, and drop the diffracted segments. -/
noncomputable def split_ray_path (pts : List PathPoint) (model : VModel) :
    List (List PathPoint) × List SegKind :=
  let dpaths := dpathsOf pts model.discs
  let dwaves := dpaths.map fun path => classify_path path model
  (((dpaths.zip dwaves).filter fun pw => decide (pw.2 ≠ SegKind.diff)).map
      Prod.fst,
   ((dpaths.zip dwaves).filter fun pw => decide (pw.2 ≠ SegKind.diff)).map
      Prod.snd)

/-- `np.sign`. -/
noncomputable def signR (x : ℝ) : ℝ :=
  if 0 < x then 1 else if x < 0 then -1 else 0

/-- `integral_coefficients(arrival, model)`: ellipticity coefficients due to
the integral along the ray path, trapezoidal in vertical slowness. -/
noncomputable def integral_coefficients (arr : ArrivalI) (model : VModel) :
    List ℝ :=
  let pw := split_ray_path arr.path model
  let sigmas := (pw.1.zip pw.2).map fun pwi =>
    let path := pwi.1
    let wave := pwi.2
    let depth := path.map (·.depth)
    let max_depth := depth.foldr max 0
    let v := depth.map fun d =>
      if d ≠ max_depth then model.evaluate_below d wave
      else model.evaluate_above max_depth wave
    let dvdr := depth.map fun d =>
      if d ≠ max_depth then -(model.deriv_below d wave)
      else -(model.deriv_above max_depth wave)
    let eta := List.zipWith (fun r vi => r / vi)
      (depth.map fun d => model.radius_of_planet - d) v
    let epsilon := depth.map model.getEps
    let distL := path.map (·.dist)
    let vs := eta.map fun e => np_sqrt_clamped (e ^ 2 - arr.ray_param ^ 2)
    fun (m : ℕ) =>
      let integrand := (List.range path.length).map fun i =>
        (eta.getD i 0 * dvdr.getD i 0 / (1 - eta.getD i 0 * dvdr.getD i 0)) *
          epsilon.getD i 0 * (-(2 / 3) * walpVal m (distL.getD i 0))
      ((List.range (path.length - 1)).map fun i =>
        0.5 * (integrand.getD (i + 1) 0 + integrand.getD i 0) *
          |vs.getD (i + 1) 0 - vs.getD i 0|).sum
  ([0, 1, 2] : List ℕ).map fun m => (sigmas.map fun f => f m).sum

/-- `discontinuity_contribution(points, phase, model)`: coefficients due to an
individual discontinuity (boundary point with its neighbour). -/
noncomputable def discontinuity_contribution (points : PathPoint × PathPoint)
    (phase : SegKind) (model : VModel) : List ℝ :=
  let disc_point := points.1
  let neighbour_point := points.2
  let ray_param := disc_point.p
  let distance := disc_point.dist
  let depth := disc_point.depth
  let radius := model.radius_of_planet - depth
  let neighbour_depth := neighbour_point.depth
  let v := if depth ≤ neighbour_depth then model.evaluate_below depth phase
           else model.evaluate_above depth phase
  let eta := radius / v
  let vs0 := np_sqrt_clamped (eta ^ 2 - ray_param ^ 2)
  let vertical_slowness := if neighbour_depth = depth then 0 else vs0
  let sign := signR (depth - neighbour_depth)
  let epsilon := model.getEps depth
  ([0, 1, 2] : List ℕ).map fun m =>
    -sign * vertical_slowness * epsilon * (-(2 / 3) * walpVal m distance)

/-- `discontinuity_coefficients(arrival, model)`: sum of the boundary
contributions at both ends of every (non-diffracted) segment. -/
noncomputable def discontinuity_coefficients (arr : ArrivalI) (model : VModel) :
    List ℝ :=
  let pw := split_ray_path arr.path model
  let sigmas := (pw.1.zip pw.2).map fun pwi =>
    let path := pwi.1
    let wave := pwi.2
    let start_points := (path.getD 0 dp, path.getD 1 dp)
    let end_points := (path.getLastD dp, path.getD (path.length - 2) dp)
    let s := discontinuity_contribution start_points wave model
    let e := discontinuity_contribution end_points wave model
    List.zipWith (· + ·) s e
  ([0, 1, 2] : List ℕ).map fun m => (sigmas.map fun s => s.getD m 0).sum

/-- `individual_ellipticity_coefficients(arrival, model)`: the final
coefficients, `sigma = [ray_sigma[m] + disc_sigma[m] for m in [0, 1, 2]]`. -/
noncomputable def individual_ellipticity_coefficients (arr : ArrivalI)
    (model : VModel) : List ℝ :=
  let ray_sigma := integral_coefficients arr model
  let disc_sigma := discontinuity_coefficients arr model
  ([0, 1, 2] : List ℕ).map fun m => ray_sigma.getD m 0 + disc_sigma.getD m 0

/-- `np.cumsum`: the running partial sums (length preserved). -/
noncomputable def cumsum (l : List ℝ) : List ℝ :=
  (List.scanl (· + ·) 0 l).tail

/-- `scipy.integrate.cumtrapz(f, x=x, initial=0.0)`: cumulative trapezoidal
integral of samples `f` against abscissae `x`, a leading 0 included
(length preserved). -/
noncomputable def cumtrapzX (f x : List ℝ) : List ℝ :=
  List.scanl (· + ·) 0
    (List.zipWith (fun ff xx => 0.5 * (ff.1 + ff.2) * (xx.2 - xx.1))
      (f.zip f.tail) (x.zip x.tail))

/-- `model_epsilon`, line 43: `top_radius = a - top_depth` (inputs are the
layer arrays already reversed bottom-up, depths in km, `a` in m). -/
noncomputable def me_top_radius (a : ℝ) (top_depth_km : List ℝ) : List ℝ :=
  top_depth_km.map fun d => a - d * 1000

/-- `model_epsilon`, lines 46-49: shell volumes by difference of sphere
volumes, with a leading zero (`volume[1:] - volume[:-1]`). -/
noncomputable def me_d_volume (a : ℝ) (top_depth_km : List ℝ) : List ℝ :=
  let top_volume := (me_top_radius a top_depth_km).map fun r =>
    (4.0 / 3.0) * Real.pi * r ^ 3
  List.zipWith (fun x y => x - y) top_volume (0 :: top_volume)

/-- `model_epsilon`, line 50: `d_mass = 0.5 * (bot_density + top_density) *
d_volume` (densities in g/cc, scaled by 1e3 to kg/m^3 as in lines 41-42). -/
noncomputable def me_d_mass (a : ℝ) (top_depth_km top_density bot_density :
    List ℝ) : List ℝ :=
  List.zipWith (fun rho dv => 0.5 * rho * dv)
    (List.zipWith (fun b t => b * 1000 + t * 1000) bot_density top_density)
    (me_d_volume a top_depth_km)

/-- `model_epsilon`, line 51: `mass = np.cumsum(d_mass)`. -/
noncomputable def me_mass (a : ℝ) (top_depth_km top_density bot_density :
    List ℝ) : List ℝ :=
  cumsum (me_d_mass a top_depth_km top_density bot_density)

/-- `model_epsilon`, line 53: the total mass is the last cumulative mass. -/
noncomputable def me_total_mass (a : ℝ)
    (top_depth_km top_density bot_density : List ℝ) : ℝ :=
  (me_mass a top_depth_km top_density bot_density).getLastD 0

/-- `model_epsilon`, lines 56-62: shell moments of inertia
(`j_top = (8/15)·π·r⁵`, differenced with a leading zero, mass-weighted,
accumulated). -/
noncomputable def me_moment (a : ℝ)
    (top_depth_km top_density bot_density : List ℝ) : List ℝ :=
  let j_top := (me_top_radius a top_depth_km).map fun r =>
    (8.0 / 15.0) * Real.pi * r ^ 5
  let d_j := List.zipWith (fun x y => x - y) j_top (0 :: j_top)
  cumsum (List.zipWith (fun rho dj => 0.5 * rho * dj)
    (List.zipWith (fun b t => b * 1000 + t * 1000) bot_density top_density)
    d_j)

/-- `model_epsilon`, line 65: `y = moment_of_inertia / (mass * top_radius²)`. -/
noncomputable def me_y (a : ℝ) (top_depth_km top_density bot_density :
    List ℝ) : List ℝ :=
  List.zipWith (fun iy mr => iy / mr)
    (me_moment a top_depth_km top_density bot_density)
    (List.zipWith (fun m r => m * r ^ 2)
      (me_mass a top_depth_km top_density bot_density)
      (me_top_radius a top_depth_km))

/-- `model_epsilon`, line 68: Radau's parameter
`radau = 6.25 * (1 - 3y/2)² - 1`. -/
noncomputable def me_radau (a : ℝ) (top_depth_km top_density bot_density :
    List ℝ) : List ℝ :=
  (me_y a top_depth_km top_density bot_density).map fun y =>
    6.25 * (1 - 3 * y / 2) ^ 2 - 1

/-- `model_epsilon`, line 72: `ha = a³ω² / (G·total_mass)`, `ω = 2π/lod`. -/
noncomputable def me_ha (a lod : ℝ)
    (top_depth_km top_density bot_density : List ℝ) : ℝ :=
  a ^ 3 * (2 * Real.pi / lod) ^ 2 /
    (gConst * me_total_mass a top_depth_km top_density bot_density)

/-- `model_epsilon`, line 75: surface epsilon
`epsilona = 5·ha / (2·radau[-1] + 4)`. -/
noncomputable def me_epsilona (a lod : ℝ)
    (top_depth_km top_density bot_density : List ℝ) : ℝ :=
  5 * me_ha a lod top_depth_km top_density bot_density /
    (2 * (me_radau a top_depth_km top_density bot_density).getLastD 0 + 4)

/-- `model_epsilon`, line 78: the unnormalised ODE solution
`exp(cumtrapz(radau / top_radius, x=top_radius, initial=0))`. -/
noncomputable def me_epsilon_raw (a : ℝ)
    (top_depth_km top_density bot_density : List ℝ) : List ℝ :=
  (cumtrapzX
    (List.zipWith (fun rad r => rad / r)
      (me_radau a top_depth_km top_density bot_density)
      (me_top_radius a top_depth_km))
    (me_top_radius a top_depth_km)).map Real.exp

/-- `model_epsilon`, line 79: normalisation so the solution matches
`epsilona` at the surface: `epsilon = epsilona * epsilon / epsilon[-1]`. -/
noncomputable def me_epsilon (a lod : ℝ)
    (top_depth_km top_density bot_density : List ℝ) : List ℝ :=
  (me_epsilon_raw a top_depth_km top_density bot_density).map fun e =>
    me_epsilona a lod top_depth_km top_density bot_density * e /
      (me_epsilon_raw a top_depth_km top_density bot_density).getLastD 0

/-- `model_epsilon`, line 84: `epsilon = np.insert(epsilon, 0, epsilon[0])`,
the centre-of-planet value prepended (index 0 is the centre, index 1 the
first nonzero-radius sample). -/
noncomputable def me_epsilon_centre (a lod : ℝ)
    (top_depth_km top_density bot_density : List ℝ) : List ℝ :=
  (me_epsilon a lod top_depth_km top_density bot_density).headD 0 ::
    me_epsilon a lod top_depth_km top_density bot_density

/-- `model_epsilon`, lines 85-86: the stored attributes
`top_epsilon = epsilon[::-1][:-1]` and `bot_epsilon = epsilon[::-1][1:]`. -/
noncomputable def me_top_epsilon (a lod : ℝ)
    (top_depth_km top_density bot_density : List ℝ) : List ℝ :=
  (me_epsilon_centre a lod top_depth_km top_density bot_density).reverse.dropLast

/-- `model_epsilon`, line 86: the stored `bot_epsilon` attribute. -/
noncomputable def me_bot_epsilon (a lod : ℝ)
    (top_depth_km top_density bot_density : List ℝ) : List ℝ :=
  (me_epsilon_centre a lod top_depth_km top_density bot_density).reverse.tail

/-- Concrete two-velocity model used to instantiate theorems:
p-velocity 2 km/s, s-velocity 1 km/s everywhere, no gradients. -/
noncomputable def wModel : VModel where
  radius_of_planet := 300
  discs := [0]
  evaluate_below := fun _ w => if w = SegKind.p then 2 else 1
  evaluate_above := fun _ w => if w = SegKind.p then 2 else 1
  deriv_below := fun _ _ => 0
  deriv_above := fun _ _ => 0
  getEps := fun _ => 0

/-- Concrete path points used to instantiate theorems. -/
def wq0 : PathPoint := ⟨0, 0, 0, 100⟩

/-- Concrete path point, 100 km below `wq0`, reached 50 s later. -/
def wq1 : PathPoint := ⟨0, 50, 0.1, 200⟩

/-- Concrete path point at the surface (depth 0). -/
def wq2 : PathPoint := ⟨0, 150, 0.3, 0⟩

end Ipy

namespace Ity

open Ipy

/-- The transmission-case time difference of `discontinuity_coefficients`
(src/ellipticity/tools.py): `eva = -(np.sqrt(eta0**2 - p**2) -
np.sqrt(eta1**2 - p**2))`, with `np.sqrt` NaN-faithful (`none` = NaN): the
argument is NOT clamped in this variant. -/
noncomputable def evaTransNp (eta0 eta1 q : ℝ) : Option ℝ :=
  (npSqrt (eta0 ^ 2 - q ^ 2)).bind fun a =>
    (npSqrt (eta1 ^ 2 - q ^ 2)).map fun b => -(a - b)

/-- A TauP arrival as returned by the ray-tracing collaborator
(`model.get_ray_paths`): the fields `get_taup_arrival` reads. -/
structure TaupArrivalR where
  purist_distance : ℝ
  distance : ℝ
  ray_param : ℝ

/-- `PhaseError(phase, vel_model)`: raised when no phase arrival exists for
the inputted geometry.  (The message string assembled in `__init__` carries
exactly these two data.) -/
structure PhaseErrorE where
  phase : String
  vel_model : String

/-- `get_taup_arrival(phase, distance, source_depth, arrival_index, model)`:
the collaborator's traced arrivals are filtered to those whose purist
distance matches the requested distance to within 1e-4 degrees; if none
qualifies a `PhaseError` is raised, else the indexed arrival is returned.
(The collaborator call itself and the model-name string cleanup are external;
the traced list and the model name are inputs.) -/
noncomputable def get_taup_arrival (phase : String) (distance : ℝ)
    (_source_depth : ℝ) (arrival_index : ℕ) (traced : List TaupArrivalR)
    (vel_model : String) : Except PhaseErrorE TaupArrivalR :=
  let arrivals := traced.filter fun x =>
    decide (|x.purist_distance - distance| < 0.0001)
  if arrivals.length = 0 then Except.error ⟨phase, vel_model⟩
  else Except.ok (arrivals.getD arrival_index ⟨0, 0, 0⟩)

/-- The list-input branch of `ellipticity_coefficients`: fetch the arrival
through `get_taup_arrival` and compute its coefficients (the subsequent
computation on the arrival is abstracted as `coeffs`).  An exception raised
by `get_taup_arrival` propagates: there is no handler. -/
noncomputable def coefficientsFromListSpec (phase : String)
    (distance source_depth : ℝ) (arrival_index : ℕ)
    (traced : List TaupArrivalR) (vel_model : String)
    (coeffs : TaupArrivalR → List ℝ) : Except PhaseErrorE (List ℝ) :=
  (get_taup_arrival phase distance source_depth arrival_index traced
    vel_model).map coeffs

/-- `centre_of_planet_coefficients` (src/ellipticity/tools.py): the final
interpolation step, lines 252-262.  `coeffs1`/`coeffs2` are the coefficient
lists of the two auxiliary arrivals (obtained by the recursive
`ellipticity_coefficients` calls at distances reduced by 0.05 and 0.10
degrees) and `distance1`/`distance2` their epicentral distances; each
coefficient is interpolated linearly in distance to `distance`. -/
noncomputable def centre_of_planet_coefficients_interp
    (coeffs1 coeffs2 : List ℝ) (distance distance1 distance2 : ℝ) : List ℝ :=
  (List.range coeffs1.length).map fun i =>
    coeffs1.getD i 0 +
      ((distance - distance1) / (distance2 - distance1)) *
        (coeffs2.getD i 0 - coeffs1.getD i 0)

/-- The velocity-model collaborator plus model constants, for the
`src/ellipticity/tools.py` variant: `evaluate_below/above` and the layer
derivative queries are the external layered-model interface (wave types are
the lower-case letter characters this variant passes around); `discs` is
`get_discontinuity_depths()[:-1]`; `epsilon_r`/`epsilonArr` are the cached
profile arrays attached by `model_epsilon`. -/
structure TauModelV where
  radius_of_planet : ℝ
  cmb_depth : ℝ
  iocb_depth : ℝ
  discs : List ℝ
  evaluate_below : ℝ → Char → ℝ
  evaluate_above : ℝ → Char → ℝ
  deriv_below : ℝ → Char → ℝ
  deriv_above : ℝ → Char → ℝ
  epsilon_r : List ℝ
  epsilonArr : List ℝ

/-- A TauP arrival as consumed by the `src/ellipticity/tools.py` pipeline. -/
structure ArrivalV where
  name : String
  source_depth : ℝ
  distance : ℝ
  ray_param : ℝ
  path : List PathPoint

/-- `bot_dep = max([x[3] for x in arrival.path])` (the source's `max` would
raise on an empty path; 0 is a junk default for that case). -/
noncomputable def botDep (arr : ArrivalV) : ℝ :=
  (arr.path.map (·.depth)).foldr max 0

/-- Is `pat` a prefix of the second list (Python string comparison step)? -/
def isPrefList : List Char → List Char → Bool
  | [], _ => true
  | _ :: _, [] => false
  | a :: t1, b :: t2 => a = b && isPrefList t1 t2

/-- Contiguous-substring test: Python's `pat in s`. -/
def containsSub (pat : List Char) : List Char → Bool
  | [] => pat.isEmpty
  | b :: rest => isPrefList pat (b :: rest) || containsSub pat rest

/-- `"diff" in arrival.name`. -/
def hasDiff (s : String) : Bool := containsSub "diff".toList s.toList

/-- `phase_name.replace("diff", c)`: replace each (non-overlapping,
left-to-right) occurrence of "diff" by the character `c`. -/
def replaceDiff : List Char → Char → List Char
  | [], _ => []
  | a :: rest, c =>
    if a = 'd' ∧ rest.take 3 = ['i', 'f', 'f']
    then c :: replaceDiff (rest.drop 3) c
    else a :: replaceDiff rest c
termination_by l _ => l.length
decreasing_by
  all_goals simp [List.length_drop]
  omega

/-- `phase_name.index("diff")`: index of the first occurrence (list length
when absent; Python would raise there). -/
def idxOfDiff : List Char → ℕ
  | [] => 0
  | a :: rest =>
    if a = 'd' ∧ rest.take 3 = ['i', 'f', 'f'] then 0 else idxOfDiff rest + 1

/-- `ray_path`, lines 425-436: the per-leg wave letters of the phase name:
"diff" replaced by the letter preceding its first occurrence, the boundary
markers c and i removed, and K,I mapped to P and J to S.  (For a phase name
beginning with "diff" Python's `[index - 1]` wraps to the last character;
that junk case uses a default here.) -/
def segLetters (phase : String) : List Char :=
  let cs := phase.toList
  let cs2 := if hasDiff phase
    then replaceDiff cs (cs.getD (idxOfDiff cs - 1) 'P')
    else cs
  (cs2.filter fun c => decide (c ≠ 'c' ∧ c ≠ 'i')).map fun c =>
    if c = 'K' then 'P' else if c = 'I' then 'P'
    else if c = 'J' then 'S' else c

/-- `ray_path`, lines 437-447: assign a (lower-cased) segment letter to each
path point, advancing to the next letter at every interior point lying on
the surface, the core-mantle boundary or the inner-outer core boundary where
the depth changed from the previous point. -/
noncomputable def wavesOfPath (arr : ArrivalV) (model : TauModelV) :
    List Char :=
  let segments := segLetters arr.name
  let n := arr.path.length
  ((List.range n).foldl
    (fun st i =>
      let pathi := arr.path.getD i dp
      let letter :=
        if i ≠ 0 ∧ i ≠ n - 1 ∧
            (pathi.depth = 0 ∨ pathi.depth = model.cmb_depth ∨
              pathi.depth = model.iocb_depth) ∧
            pathi.depth ≠ (arr.path.getD (i - 1) dp).depth
        then st.1 + 1 else st.1
      (letter, st.2 ++ [(segments.getD letter 'p').toLower]))
    ((0, []) : ℕ × List Char)).2

/-- Append a value to the last inner list (the Python
`paths[count].append(...)` on the dict-of-lists accumulator; on an empty
accumulator the Python raises KeyError — junk behaviour here). -/
def appendToLast {α : Type} (l : List (List α)) (x : α) : List (List α) :=
  l.dropLast ++ [l.getLastD [] ++ [x]]

/-- `ray_path`, lines 449-472: split the path at discontinuity depths and
the bottoming depth (the shared boundary point and its previous wave letter
are appended to the preceding segment), then return the ordered segments and
their per-point wave letters. -/
noncomputable def ray_path (arr : ArrivalV) (model : TauModelV) :
    List (List PathPoint) × List (List Char) :=
  let bot_dep := botDep arr
  let n := arr.path.length
  let ws := wavesOfPath arr model
  (List.range n).foldl
    (fun st i =>
      let pathi := arr.path.getD i dp
      if (i = 0 ∨ pathi.depth ∈ model.discs ∨ pathi.depth = bot_dep) ∧
          i ≠ n - 1
      then
        let st2 := if st.1.isEmpty then st
          else (appendToLast st.1 pathi,
            appendToLast st.2 (ws.getD (i - 1) 'p'))
        (st2.1 ++ [[pathi]], st2.2 ++ [[ws.getD i 'p']])
      else (appendToLast st.1 pathi, appendToLast st.2 (ws.getD i 'p')))
    (([], []) : List (List PathPoint) × List (List Char))

/-- `np.searchsorted(radii, radius, side="left")` for a sorted array: the
number of entries strictly below `radius`. -/
noncomputable def searchsortedLeft (l : List ℝ) (x : ℝ) : ℕ :=
  l.countP fun y => decide (y < x)

/-- `get_epsilon(model, radius)` (src/ellipticity/tools.py): nearest-value
lookup into the cached profile arrays. -/
noncomputable def get_epsilon (model : TauModelV) (radius : ℝ) : ℝ :=
  let epsilon := model.epsilonArr
  let radii := model.epsilon_r
  let idx := searchsortedLeft radii radius
  if 0 < idx ∧ (idx = radii.length ∨
      |radius - radii.getD (idx - 1) 0| < |radius - radii.getD idx 0|)
  then epsilon.getD (idx - 1) 0
  else epsilon.getD idx 0

/-- `get_dvdr_below(model, radius, wave)`: `-evaluate_derivative_below(v_mod,
Re - radius/1e3, wave)`. -/
noncomputable def get_dvdr_below (model : TauModelV) (radius : ℝ)
    (wave : Char) : ℝ :=
  -(model.deriv_below (model.radius_of_planet - radius / 1000) wave)

/-- `get_dvdr_above(model, radius, wave)`. -/
noncomputable def get_dvdr_above (model : TauModelV) (radius : ℝ)
    (wave : Char) : ℝ :=
  -(model.deriv_above (model.radius_of_planet - radius / 1000) wave)

/-- `np.trapz(y, x=x)`: the trapezoidal rule over the sample points. -/
noncomputable def trapz (ys xs : List ℝ) : ℝ :=
  (List.zipWith (fun yy xx => 0.5 * (yy.1 + yy.2) * (xx.2 - xx.1))
    (ys.zip ys.tail) (xs.zip xs.tail)).sum

/-- `integral_coefficients` (src/ellipticity/tools.py), the per-segment
integral: depths in m (points at the planet centre moved up 1 m), one-sided
velocity and gradient queries ("below" except at the segment's deepest
point; the gradient uses the segment's first wave letter, the velocity the
per-point letter, as in the source), then
`np.trapz(eta³ · dv/dr · ε · λ_m, x=dist) / p`. -/
noncomputable def segIntegral (arr : ArrivalV) (model : TauModelV)
    (pw : List PathPoint × List Char) (m : ℕ) : ℝ :=
  let Re := model.radius_of_planet
  let path := pw.1
  let wave_path := pw.2
  let dep := (path.map fun x => x.depth * 1000).map fun d =>
    if d = Re * 1000 then Re * 1000 - 1 else d
  let mx := dep.foldr max 0
  let r := dep.map fun d => Re * 1000 - d
  let v := (List.range path.length).map fun i =>
    (if dep.getD i 0 ≠ mx
     then model.evaluate_below (dep.getD i 0 / 1000) (wave_path.getD i 'p')
     else model.evaluate_above (dep.getD i 0 / 1000) (wave_path.getD i 'p'))
      * 1000
  let dvdr := (List.range path.length).map fun i =>
    if dep.getD i 0 ≠ mx
    then get_dvdr_below model (r.getD i 0) (wave_path.getD 0 'p')
    else get_dvdr_above model (r.getD i 0) (wave_path.getD 0 'p')
  let eta := List.zipWith (fun ri vi => ri / vi) r v
  let epsilon := r.map fun ri => get_epsilon model ri
  let dist := path.map (·.dist)
  trapz ((List.range path.length).map fun i =>
    eta.getD i 0 ^ 3 * dvdr.getD i 0 * epsilon.getD i 0 *
      (-1.0 * (2.0 / 3.0) * walpVal m (dist.getD i 0))) dist / arr.ray_param

/-- `integral_coefficients` (src/ellipticity/tools.py), lines 475-534: the
per-segment integrals summed over all segments, for each order.  (The source
accumulates one three-entry list per segment and then sums per order; the
transposed map-sum here computes the same values.) -/
noncomputable def integral_coefficients (arr : ArrivalV) (model : TauModelV)
    (paths : List (List PathPoint)) (wave_paths : List (List Char)) :
    List ℝ :=
  ([0, 1, 2] : List ℕ).map fun m =>
    ((paths.zip wave_paths).map fun pw => segIntegral arr model pw m).sum

/-- One record of the `idiscs` list of `discontinuity_coefficients`:
path index, position in the list (`order`), depth and radius in m, distance,
and ray parameter. -/
structure IdiscV where
  ind : ℕ
  order : ℕ
  dep : ℝ
  r : ℝ
  dist : ℝ
  p : ℝ

/-- Python's `round(x, 5)` (round-half-even differs from this
round-half-up only on exact half-multiples of 1e-5, immaterial here). -/
noncomputable def round5 (x : ℝ) : ℝ :=
  ((⌊x * 100000 + 0.5⌋ : ℤ) : ℝ) / 100000

/-- `discontinuity_coefficients`, lines 551-554: the depths against which
interactions are collected — the model discontinuities, with the bottoming
depth appended when the ray does not start at its deepest point. -/
noncomputable def assessDiscs (arr : ArrivalV) (model : TauModelV) :
    List ℝ :=
  if botDep arr = (arr.path.headD dp).depth then model.discs
  else model.discs ++ [botDep arr]

/-- `discontinuity_coefficients`, lines 558-562: the path indices (with
depth and distance) whose depth lies in `assessDiscs`. -/
noncomputable def idsOf (arr : ArrivalV) (model : TauModelV) :
    List (ℕ × ℝ × ℝ) :=
  (List.range arr.path.length).filterMap fun i =>
    if (arr.path.getD i dp).depth ∈ assessDiscs arr model
    then some (i, (arr.path.getD i dp).depth, (arr.path.getD i dp).dist)
    else none

/-- `discontinuity_coefficients`, lines 563-564: a source-depth entry is
prepended when the source is neither at the surface nor at the first
collected depth.  (`ids[0]` on an empty list would raise; junk default.) -/
noncomputable def idsWithSource (arr : ArrivalV) (model : TauModelV) :
    List (ℕ × ℝ × ℝ) :=
  let ids := idsOf arr model
  if arr.source_depth = 0 ∨ arr.source_depth = (ids.headD (0, 0, 0)).2.1
  then ids
  else (0, arr.source_depth, 0) :: ids

/-- `discontinuity_coefficients`, lines 565-575: the `idiscs` records. -/
noncomputable def idiscsOf (arr : ArrivalV) (model : TauModelV) :
    List IdiscV :=
  let ids := idsWithSource arr model
  (List.range ids.length).map fun d =>
    { ind := (ids.getD d (0, 0, 0)).1
      order := d
      dep := (ids.getD d (0, 0, 0)).2.1 * 1000
      r := (model.radius_of_planet - (ids.getD d (0, 0, 0)).2.1) * 1000
      dist := (ids.getD d (0, 0, 0)).2.2
      p := (arr.path.headD dp).p }

/-- `discontinuity_coefficients`, lines 578-590: whether a boundary record
is summed.  Not summed when the phase is diffracted and the record sits on
the core-mantle boundary; summed when the (rounded) depth is a model
discontinuity or the record is the first (`d == 0`, the source entry);
otherwise (the bottoming-depth-only case) not summed. -/
noncomputable def ynOf (arr : ArrivalV) (model : TauModelV) (e : IdiscV) :
    Bool :=
  if hasDiff arr.name ∧ e.dep = model.cmb_depth * 1000 then false
  else if round5 (e.dep * 1e-3) ∈ model.discs ∨ e.order = 0 then true
  else false

/-- `discontinuity_coefficients`, lines 610-812: the signed vertical-
slowness factor `eva` of a summed boundary record, by interaction kind
(transmission / underside or topside reflection / endpoint / surface
reflection), with the one-sided velocities queried as in the source.  The
square roots are NOT clamped in this variant (see `evaTransNp` for the
NaN-faithful model of the transmission case); interior interactions of
"diff" type leave `eva` unassigned in the source (a NameError) — junk 0
here, as does Python's unassigned `ph_above` when both directions are
"diff". -/
noncomputable def evaOf (arr : ArrivalV) (model : TauModelV)
    (wave_paths : List (List Char)) (e : IdiscV) : ℝ :=
  if e.dep ≠ 0 ∧ e.ind ≠ 0 then
    let dep0 := (arr.path.getD (e.ind - 1) dp).depth
    let dep1 := (arr.path.getD e.ind dp).depth
    let dep2 := (arr.path.getD (e.ind + 1) dp).depth
    let pre := if dep0 < dep1 then "down"
      else if dep0 = dep1 then "diff" else "up"
    let post := if dep1 < dep2 then "down"
      else if dep1 = dep2 then "diff" else "up"
    let ty := if pre = post then "trans"
      else if pre = "diff" ∨ post = "diff" then "diff" else "refl"
    let ph_pre := (wave_paths.getD (e.order - 1) []).getLastD 'p'
    let ph_post := (wave_paths.getD e.order []).headD 'p'
    if ty = "trans" then
      let ph_above := if pre = "down" then ph_pre else ph_post
      let ph_below := if pre = "down" then ph_post else ph_pre
      let v0 := model.evaluate_above (e.dep / 1000) ph_above * 1000
      let v1 := model.evaluate_below (e.dep / 1000) ph_below * 1000
      (-1.0) * (Real.sqrt ((e.r / v0) ^ 2 - e.p ^ 2) -
        Real.sqrt ((e.r / v1) ^ 2 - e.p ^ 2))
    else if ty = "refl" ∧ pre = "up" then
      let v0 := model.evaluate_below (e.dep / 1000) ph_pre * 1000
      let v1 := model.evaluate_below (e.dep / 1000) ph_post * 1000
      Real.sqrt ((e.r / v0) ^ 2 - e.p ^ 2) +
        Real.sqrt ((e.r / v1) ^ 2 - e.p ^ 2)
    else if ty = "refl" ∧ pre = "down" then
      let v0 := model.evaluate_above (e.dep / 1000) ph_pre * 1000
      let v1 := model.evaluate_above (e.dep / 1000) ph_post * 1000
      (-1.0) * (Real.sqrt ((e.r / v0) ^ 2 - e.p ^ 2) +
        Real.sqrt ((e.r / v1) ^ 2 - e.p ^ 2))
    else 0
  else if e.ind = 0 ∨ e.ind = arr.path.length - 1 then
    let wave := if e.ind = 0 then (wave_paths.headD []).headD 'p'
      else (wave_paths.getLastD []).getLastD 'p'
    if (arr.name.toList.headD 'P') ∈ ['p', 's'] ∧ e.ind = 0 then
      let v1 := model.evaluate_above (e.dep / 1000) wave * 1000
      (-1.0) * Real.sqrt ((e.r / v1) ^ 2 - e.p ^ 2)
    else
      let v1 := model.evaluate_below (e.dep / 1000) wave * 1000
      (-1.0) * (0 - Real.sqrt ((e.r / v1) ^ 2 - e.p ^ 2))
  else
    let ph_pre := (wave_paths.getD (e.order - 1) []).getLastD 'p'
    let ph_post := (wave_paths.getD e.order []).headD 'p'
    let v0 := model.evaluate_below (e.dep / 1000) ph_pre * 1000
    let v1 := model.evaluate_below (e.dep / 1000) ph_post * 1000
    Real.sqrt ((e.r / v0) ^ 2 - e.p ^ 2) +
      Real.sqrt ((e.r / v1) ^ 2 - e.p ^ 2)

/-- `discontinuity_coefficients`, lines 593-815: the order-`m` contribution
of a summed record: `sigma[m] = (epsilon · lambda[m]) · eva`. -/
noncomputable def idiscSigma (arr : ArrivalV) (model : TauModelV)
    (wave_paths : List (List Char)) (e : IdiscV) (m : ℕ) : ℝ :=
  let epsilon := get_epsilon model e.r
  let lam := -1.0 * (2.0 / 3.0) * walpVal m e.dist
  epsilon * lam * evaOf arr model wave_paths e

/-- `discontinuity_coefficients` (src/ellipticity/tools.py), lines 537-822:
for each order, the sum of `sigma[m]` over exactly the records with
`yn` set — the others are skipped by the filter, not added as zeros. -/
noncomputable def discontinuity_coefficients (arr : ArrivalV)
    (model : TauModelV) (_paths : List (List PathPoint))
    (wave_paths : List (List Char)) : List ℝ :=
  let idiscs := idiscsOf arr model
  ([0, 1, 2] : List ℕ).map fun m =>
    ((idiscs.filter fun e => ynOf arr model e).map fun e =>
      idiscSigma arr model wave_paths e m).sum

/-- `ellipticity_coefficients` (src/ellipticity/tools.py), lines 394-412:
when the ray bottoms within 50 m of the planet's centre the near-centre
fallback is used (`centreFallback` stands for the recursive
`centre_of_planet_coefficients` computation through the ray-tracing
collaborator); otherwise the ray-path and discontinuity contributions are
computed over the split path and summed per order. -/
noncomputable def ellipticity_coefficients (arr : ArrivalV)
    (model : TauModelV)
    (centreFallback : ArrivalV → TauModelV → List ℝ) : List ℝ :=
  let bot_dep := botDep arr
  if (model.radius_of_planet - bot_dep) * 1000 < 50
  then centreFallback arr model
  else
    let pw := ray_path arr model
    let ray_sigma := integral_coefficients arr model pw.1 pw.2
    let disc_sigma := discontinuity_coefficients arr model pw.1 pw.2
    ([0, 1, 2] : List ℕ).map fun m =>
      ray_sigma.getD m 0 + disc_sigma.getD m 0

/-- Concrete arrival used to instantiate theorems: a diffracted-phase name,
source at 5 km depth, two path points (depths 5 km and 0 km). -/
noncomputable def wArr : ArrivalV :=
  { name := "Pdiff"
    source_depth := 5
    distance := 60
    ray_param := 0
    path := [⟨0, 0, 0, 5⟩, ⟨0, 10, 0.2, 0⟩] }

/-- Concrete model used to instantiate theorems: planet radius 10 km,
core-mantle boundary at 3 km depth, one model discontinuity (the surface). -/
noncomputable def wMod : TauModelV :=
  { radius_of_planet := 10
    cmb_depth := 3
    iocb_depth := 6
    discs := [0]
    evaluate_below := fun _ _ => 1
    evaluate_above := fun _ _ => 1
    deriv_below := fun _ _ => 0
    deriv_above := fun _ _ => 0
    epsilon_r := [0]
    epsilonArr := [0] }

end Ity

open Ipy

lemma radians_ninety_sub (s : ℝ) :
    radians (90 - s) = Real.pi / 2 - radians s := by
  unfold radians; ring

lemma weighted_alp2_eq_some (m : ℕ) (hm : m < 3) (θ : ℝ) :
    weighted_alp2 m θ = some (walpVal m θ) := by
  interval_cases m <;> simp [weighted_alp2]

/-- **C2** (confirmed).  For every coefficient triple, azimuth (degrees) and
source latitude (degrees), `correction_from_coefficients` returns
`Σ_{m=0,1,2} coeff[m] · WeightedLegendre(m, colatitude) · cos(m·azimuth_radians)`
with `colatitude = π/2 − latitude_radians`: the code's
`radians(90 - latitude)` equals `π/2 − radians(latitude)` exactly. -/
theorem claim_C2_correction_evaluator (coefficients : List ℝ)
    (azimuth source_latitude : ℝ) :
    correction_from_coefficients coefficients azimuth source_latitude =
      correctionSpec coefficients azimuth source_latitude := by
  unfold correction_from_coefficients correctionSpec
  simp only [radians_ninety_sub]
  norm_num [weighted_alp2]

lemma alpNorm_zero : alpNorm 0 = 1 := by
  have h : (2 - (if (0:ℕ) = 0 then (1:ℝ) else 0)) *
      ((Nat.factorial (2 - 0) : ℝ) / (Nat.factorial (2 + 0) : ℝ)) = 1 := by
    norm_num [Nat.factorial]
  rw [alpNorm, h, Real.sqrt_one]

lemma alpNorm_two_eq : alpNorm 2 = Real.sqrt (1 / 12) := by
  have h : (2 - (if (2:ℕ) = 0 then (1:ℝ) else 0)) *
      ((Nat.factorial (2 - 2) : ℝ) / (Nat.factorial (2 + 2) : ℝ)) = 1 / 12 := by
    norm_num [Nat.factorial]
  rw [alpNorm, h]

/-- **C3 counterexample.**  The claim asserts the order-2 normalisation is
`sqrt(2·2!/4!)`; the code computes `sqrt((2-δ_{0,2})·(2-2)!/(2+2)!) = sqrt(1/12)`,
not `sqrt(2·2!/4!) = sqrt(1/6)`.  At `θ = π/2` the two values differ. -/
theorem claim_C3_counterexample :
    weighted_alp2 2 (Real.pi / 2) ≠
      some (Real.sqrt (2 * ((Nat.factorial 2 : ℝ) / (Nat.factorial 4))) *
        (3 * Real.sin (Real.pi / 2) ^ 2)) := by
  have harg2 : (2:ℝ) * ((Nat.factorial 2 : ℝ) / (Nat.factorial 4 : ℝ)) = 1 / 6 := by
    norm_num [Nat.factorial]
  have hval : weighted_alp2 2 (Real.pi / 2) =
      some (Real.sqrt (1 / 12) * (3 * Real.sin (Real.pi / 2) ^ 2)) := by
    simp [weighted_alp2, walpVal, alpNorm_two_eq]
  rw [hval, harg2, Real.sin_pi_div_two]
  have hlt : Real.sqrt (1 / 12) < Real.sqrt (1 / 6) :=
    Real.sqrt_lt_sqrt (by norm_num) (by norm_num)
  have h3 : Real.sqrt (1 / 12) * (3 * (1:ℝ) ^ 2) < Real.sqrt (1 / 6) * (3 * (1:ℝ) ^ 2) := by
    have : (0:ℝ) < 3 * (1:ℝ) ^ 2 := by norm_num
    exact mul_lt_mul_of_pos_right hlt this
  intro h
  exact absurd (Option.some.inj h) (ne_of_lt h3)

/-- **C3** (corrected).  For every `θ`, `weighted_alp2` returns
`norm₀·0.5·(3cos²θ−1)` with `norm₀ = √(2·0!/2!) = 1` for `m = 0`,
`norm₁·3·cosθ·sinθ` with `norm₁ = √(2·1!/3!)` for `m = 1`, and
`norm₂·3·sin²θ` with `norm₂ = √(2·(2−2)!/(2+2)!) = √(1/12)` for `m = 2`
(the claim's `√(2·2!/4!)` is wrong; this is the only change).  At `θ = 0`
the three values are exactly 1, 0, 0, and every integer `m` outside
`{0,1,2}` fails with an invalid-argument error (`none`). -/
theorem claim_C3_weighted_alp2_amended :
    (∀ θ : ℝ,
      weighted_alp2 0 θ =
        some (Real.sqrt (2 * ((Nat.factorial 0 : ℝ) / (Nat.factorial 2))) *
          (0.5 * (3 * Real.cos θ ^ 2 - 1))) ∧
      weighted_alp2 1 θ =
        some (Real.sqrt (2 * ((Nat.factorial 1 : ℝ) / (Nat.factorial 3))) *
          (3 * Real.cos θ * Real.sin θ)) ∧
      weighted_alp2 2 θ =
        some (Real.sqrt (2 * ((Nat.factorial (2 - 2) : ℝ) / (Nat.factorial (2 + 2)))) *
          (3 * Real.sin θ ^ 2))) ∧
    weighted_alp2 0 0 = some 1 ∧ weighted_alp2 1 0 = some 0 ∧
    weighted_alp2 2 0 = some 0 ∧
    ∀ m : ℤ, m ≠ 0 → m ≠ 1 → m ≠ 2 → ∀ θ : ℝ, weighted_alp2 m θ = none := by
  have hn0 : Real.sqrt (2 * ((Nat.factorial 0 : ℝ) / (Nat.factorial 2))) = 1 := by
    have h : (2:ℝ) * ((Nat.factorial 0 : ℝ) / (Nat.factorial 2 : ℝ)) = 1 := by
      norm_num [Nat.factorial]
    rw [h, Real.sqrt_one]
  have hn1 : alpNorm 1 = Real.sqrt (2 * ((Nat.factorial 1 : ℝ) / (Nat.factorial 3))) := by
    unfold alpNorm
    norm_num [Nat.factorial]
  have hn2 : alpNorm 2 =
      Real.sqrt (2 * ((Nat.factorial (2 - 2) : ℝ) / (Nat.factorial (2 + 2)))) := by
    rw [alpNorm_two_eq]
    norm_num [Nat.factorial]
  refine ⟨fun θ => ⟨?_, ?_, ?_⟩, ?_, ?_, ?_, ?_⟩
  · simp [weighted_alp2, walpVal, alpNorm_zero, hn0]
  · simp [weighted_alp2, walpVal, hn1]
  · simp [weighted_alp2, walpVal, hn2]
  · simp [weighted_alp2, walpVal, alpNorm_zero]
    norm_num
  · simp [weighted_alp2, walpVal]
  · simp [weighted_alp2, walpVal]
  · intro m h0 h1 h2 θ
    simp [weighted_alp2, h0, h1, h2]

/-- Witness for C3: the amended theorem applied at the concrete order `m = 3`
and angle `θ = 0`. -/
theorem claim_C3_witness :
    weighted_alp2 3 0 = none ∧ weighted_alp2 2 0 = some 0 :=
  ⟨claim_C3_weighted_alp2_amended.2.2.2.2 3 (by norm_num) (by norm_num)
      (by norm_num) 0,
    claim_C3_weighted_alp2_amended.2.2.2.1⟩

lemma mem_zip_map_self {α β : Type} (f : α → β) :
    ∀ (l : List α) (q : α × β), q ∈ l.zip (l.map f) → q.2 = f q.1 := by
  intro l
  induction l with
  | nil => intro q h; simp at h
  | cons a t ih =>
    intro q h
    simp only [List.map_cons, List.zip_cons_cons, List.mem_cons] at h
    rcases h with h | h
    · rw [h]
    · exact ih q h

/-- **C4** (confirmed).  The kinematic classifier tags a segment "diff"
exactly when its two compared points (first two if the path starts shallow,
else last two) have identical depth; such segments are excluded from both the
segment-integral and boundary sums (both consume `split_ray_path`, which
filters them); otherwise it returns "p" exactly when the relative error of
the predicted p delay against the observed delay
`travel_time - ray_param * distance` is smaller in absolute value than that
of the predicted s delay; and the predicted delay is the average of the two
endpoint vertical slownesses times `|Δ ln radius|` for nonzero ray parameter,
the average of `1/v` at the endpoints times `|Δ radius|` for zero ray
parameter, and 0 when the wave velocity is zero. -/
theorem claim_C4_kinematic_classifier (path : List PathPoint)
    (model : VModel) :
    (∀ point0 point1 : PathPoint,
      (classifyPoints point0 point1 model = SegKind.diff ↔
        point0.depth = point1.depth) ∧
      (∀ dt : ℝ, point0.depth ≠ point1.depth →
        dt = point1.time - point0.time -
          point0.p * |point0.dist - point1.dist| →
        ((classifyPoints point0 point1 model = SegKind.p ↔
            |expected_delay_time point0.p point0.depth point1.depth
                SegKind.p model / dt - 1| <
            |expected_delay_time point0.p point0.depth point1.depth
                SegKind.s model / dt - 1|) ∧
         (classifyPoints point0 point1 model = SegKind.s ↔
            ¬(|expected_delay_time point0.p point0.depth point1.depth
                SegKind.p model / dt - 1| <
              |expected_delay_time point0.p point0.depth point1.depth
                SegKind.s model / dt - 1|))))) ∧
    (classify_path path model =
      if (path.headD dp).depth < (path.getLastD dp).depth
      then classifyPoints (path.getD 0 dp) (path.getD 1 dp) model
      else classifyPoints (path.getD (path.length - 2) dp)
        (path.getLastD dp) model) ∧
    (∀ rp d0 d1 : ℝ, ∀ w : SegKind, ∀ v0 v1 : ℝ,
      v0 = (if d0 ≤ d1 then model.evaluate_below d0 w
            else model.evaluate_above d0 w) →
      v1 = (if d0 ≤ d1 then model.evaluate_above d1 w
            else model.evaluate_below d1 w) →
      ((0 < v0 → rp = 0 →
          expected_delay_time rp d0 d1 w model =
            0.5 * (1 / v0 + 1 / v1) *
              |(model.radius_of_planet - d1) -
                (model.radius_of_planet - d0)|) ∧
       (0 < v0 → rp ≠ 0 →
          expected_delay_time rp d0 d1 w model =
            0.5 * (np_sqrt_clamped
                (((model.radius_of_planet - d0) / v0) ^ 2 - rp ^ 2) +
              np_sqrt_clamped
                (((model.radius_of_planet - d1) / v1) ^ 2 - rp ^ 2)) *
              |Real.log ((model.radius_of_planet - d1) /
                (model.radius_of_planet - d0))|) ∧
       (v0 ≤ 0 → expected_delay_time rp d0 d1 w model = 0))) ∧
    (∀ w ∈ (split_ray_path path model).2, w ≠ SegKind.diff) ∧
    (∀ q ∈ (split_ray_path path model).1,
      classify_path q model ≠ SegKind.diff) := by
  refine ⟨fun point0 point1 => ⟨?_, ?_⟩, rfl, ?_, ?_, ?_⟩
  · unfold classifyPoints
    by_cases h : point0.depth = point1.depth
    · simp [h]
    · simp only [if_neg h]
      split_ifs <;> simp [h]
  · intro dt hne hdt
    subst hdt
    unfold classifyPoints
    simp only [if_neg hne]
    constructor
    · split_ifs with h <;> simp [h]
    · split_ifs with h <;> simp [h]
  · intro rp d0 d1 w v0 v1 hv0 hv1
    refine ⟨?_, ?_, ?_⟩
    · intro hpos hrp
      unfold expected_delay_time
      rw [← hv0, ← hv1, if_pos hpos, if_pos hrp]
    · intro hpos hrp
      unfold expected_delay_time
      rw [← hv0, ← hv1, if_pos hpos, if_neg hrp]
    · intro hle
      unfold expected_delay_time
      rw [← hv0, if_neg (not_lt.mpr hle)]
  · intro w hw
    unfold split_ray_path at hw
    simp only [List.mem_map] at hw
    obtain ⟨pw, hpw, hsnd⟩ := hw
    rw [List.mem_filter] at hpw
    rw [← hsnd]
    simpa using hpw.2
  · intro q hq
    unfold split_ray_path at hq
    simp only [List.mem_map] at hq
    obtain ⟨pw, hpw, hfst⟩ := hq
    rw [List.mem_filter] at hpw
    have h2 : pw.2 = classify_path pw.1 model :=
      mem_zip_map_self (fun q => classify_path q model) _ pw hpw.1
    have h3 : pw.2 ≠ SegKind.diff := by simpa using hpw.2
    rw [← hfst, ← h2]
    exact h3

/-- Witness for C4: the classifier applied at concrete points of the
two-velocity model `wModel` (observed delay 50 s matches the p prediction
exactly, the s prediction has relative error 1; equal depths give "diff"). -/
theorem claim_C4_witness :
    classifyPoints wq0 wq1 wModel = SegKind.p ∧
    classifyPoints wq0 wq0 wModel = SegKind.diff := by
  have hdp : expected_delay_time wq0.p wq0.depth wq1.depth SegKind.p wModel
      = 50 := by
    unfold expected_delay_time wModel wq0 wq1
    norm_num
  have hds : expected_delay_time wq0.p wq0.depth wq1.depth SegKind.s wModel
      = 100 := by
    unfold expected_delay_time wModel wq0 wq1
    have h1 : (if SegKind.s = SegKind.p then (2:ℝ) else 1) = 1 := by simp
    norm_num [h1]
  constructor
  · refine (((claim_C4_kinematic_classifier [] wModel).1 wq0 wq1).2 50
      ?_ ?_).1.mpr ?_
    · show (100 : ℝ) ≠ 200
      norm_num
    · show (50 : ℝ) = 50 - 0 - 0 * |0 - 0.1|
      norm_num
    · rw [hdp, hds]
      norm_num
  · exact ((claim_C4_kinematic_classifier [] wModel).1 wq0 wq0).1.mpr rfl

lemma clamp_eq_max (y : ℝ) : y * (if 0 < y then 1 else 0) = max 0 y := by
  split_ifs with h
  · rw [mul_one, max_eq_right (le_of_lt h)]
  · rw [mul_zero, max_eq_left (not_lt.mp h)]

/-- **C5 counterexample.**  The claim asserts the vertical slowness is
clamped (`sqrt(max(0, ·))`, never NaN) in *every* place it is evaluated,
including the discontinuity/boundary contributions.  In the
`src/ellipticity/tools.py` variant the discontinuity coefficients evaluate
`np.sqrt(eta**2 - p**2)` unclamped: at `eta0 = eta1 = 1`, `p = 2` the
argument is `-3` and the result is NaN (`none`), while the claimed clamped
computation would give `some 0`. -/
theorem claim_C5_counterexample :
    Ity.evaTransNp 1 1 2 = none ∧
    npSqrt (max 0 ((1:ℝ) ^ 2 - 2 ^ 2)) = some 0 := by
  constructor
  · unfold Ity.evaTransNp npSqrt
    norm_num
  · unfold npSqrt
    norm_num

/-- **C5** (corrected).  Where the source uses the clamped idiom
`np.sqrt(y * (y > 0))` — the segment integrals
(`integral_coefficients`), the delay-time predictions
(`expected_delay_time`) and the ellipticipy discontinuity contribution
(`discontinuity_contribution`), all defined through `np_sqrt_clamped` —
the vertical slowness equals `sqrt(max(0, (r/v)² − p²))`, is `0` whenever
the argument is negative, is never negative, and never produces NaN.
The `src/ellipticity/tools.py` discontinuity coefficients, however, take
the square root unclamped and produce NaN whenever `eta² − p² < 0`. -/
theorem claim_C5_vertical_slowness_amended :
    (∀ r v q : ℝ,
      np_sqrt_clamped ((r / v) ^ 2 - q ^ 2) =
        Real.sqrt (max 0 ((r / v) ^ 2 - q ^ 2)) ∧
      ((r / v) ^ 2 - q ^ 2 < 0 → np_sqrt_clamped ((r / v) ^ 2 - q ^ 2) = 0) ∧
      0 ≤ np_sqrt_clamped ((r / v) ^ 2 - q ^ 2) ∧
      npSqrt (((r / v) ^ 2 - q ^ 2) *
          (if 0 < (r / v) ^ 2 - q ^ 2 then 1 else 0)) =
        some (np_sqrt_clamped ((r / v) ^ 2 - q ^ 2))) ∧
    (∀ eta0 eta1 q : ℝ, eta0 ^ 2 - q ^ 2 < 0 →
      Ity.evaTransNp eta0 eta1 q = none) := by
  constructor
  · intro r v q
    set y := (r / v) ^ 2 - q ^ 2 with hy
    refine ⟨?_, ?_, ?_, ?_⟩
    · rw [np_sqrt_clamped, clamp_eq_max]
    · intro hneg
      rw [np_sqrt_clamped, clamp_eq_max, max_eq_left (le_of_lt hneg),
        Real.sqrt_zero]
    · exact Real.sqrt_nonneg _
    · rw [npSqrt, if_neg, np_sqrt_clamped]
      rw [clamp_eq_max]
      exact not_lt.mpr (le_max_left 0 y)
  · intro eta0 eta1 q hneg
    unfold Ity.evaTransNp
    rw [npSqrt, if_pos hneg, Option.none_bind]

/-- Witness for C5: the amended theorem applied at concrete inputs
(`(r,v,q) = (1,2,1)` gives a negative argument, clamped to 0; the
unclamped ellipticity-variant `eva` at `eta0 = eta1 = 1`, `p = 2` is NaN). -/
theorem claim_C5_witness :
    np_sqrt_clamped (((1:ℝ) / 2) ^ 2 - 1 ^ 2) = 0 ∧
    Ity.evaTransNp 1 1 2 = none :=
  ⟨(claim_C5_vertical_slowness_amended.1 1 2 1).2.1 (by norm_num),
   claim_C5_vertical_slowness_amended.2 1 1 2 (by norm_num)⟩

lemma getD_map_range (f : ℕ → ℝ) (n i : ℕ) (h : i < n) :
    ((List.range n).map f).getD i 0 = f i := by
  rw [List.getD_eq_getElem?_getD, List.getElem?_map, List.getElem?_range h]
  rfl

/-- **C9 counterexample.**  The near-center fallback interpolates to the
*original* distance from two auxiliary arrivals both at *smaller* distances
(`d - 0.05` and `d - 0.10`): this is linear extrapolation.  With auxiliary
coefficients 1 and 0 at distances 64.95 and 64.90 and original distance 65,
the result is 2, which does not lie between 0 and 1. -/
theorem claim_C9_counterexample :
    (Ity.centre_of_planet_coefficients_interp [1] [0] 65 (65 - 0.05)
        (65 - 0.10)).getD 0 0 = 2 ∧
    ¬((Ity.centre_of_planet_coefficients_interp [1] [0] 65 (65 - 0.05)
        (65 - 0.10)).getD 0 0 ≤ max (1:ℝ) 0) := by
  have hv : (Ity.centre_of_planet_coefficients_interp [1] [0] 65 (65 - 0.05)
      (65 - 0.10)).getD 0 0 = 2 := by
    unfold Ity.centre_of_planet_coefficients_interp
    norm_num
  refine ⟨hv, ?_⟩
  rw [hv]
  norm_num

/-- **C9** (corrected).  Each coefficient returned by the near-center
fallback equals the linear extrapolation `2·c1[i] − c2[i]` (the two auxiliary
distances `d − 0.05` and `d − 0.10` both lie on the same side of `d`), and it
lies between the two auxiliary coefficients if and only if they are equal —
the claimed no-overshoot property fails whenever the two bounding
coefficients differ. -/
theorem claim_C9_interp_amended (c1 c2 : List ℝ) (d d1 d2 : ℝ) (i : ℕ)
    (h1 : d1 = d - 0.05) (h2 : d2 = d - 0.10) (hi : i < c1.length) :
    (Ity.centre_of_planet_coefficients_interp c1 c2 d d1 d2).getD i 0 =
      2 * c1.getD i 0 - c2.getD i 0 ∧
    ((min (c1.getD i 0) (c2.getD i 0) ≤
        (Ity.centre_of_planet_coefficients_interp c1 c2 d d1 d2).getD i 0 ∧
      (Ity.centre_of_planet_coefficients_interp c1 c2 d d1 d2).getD i 0 ≤
        max (c1.getD i 0) (c2.getD i 0)) ↔
      c1.getD i 0 = c2.getD i 0) := by
  have hval : (Ity.centre_of_planet_coefficients_interp c1 c2 d d1 d2).getD
      i 0 = 2 * c1.getD i 0 - c2.getD i 0 := by
    unfold Ity.centre_of_planet_coefficients_interp
    rw [getD_map_range _ _ _ hi, h1, h2]
    have hq : (d - (d - 0.05)) / (d - 0.10 - (d - 0.05)) = -1 := by
      norm_num
    rw [hq]
    ring
  refine ⟨hval, ?_⟩
  rw [hval]
  set a := c1.getD i 0
  set b := c2.getD i 0
  constructor
  · rintro ⟨hm, hM⟩
    rcases le_total a b with hab | hab
    · rw [min_eq_left hab] at hm
      have : b ≤ a := by linarith
      exact le_antisymm hab this
    · rw [max_eq_left hab] at hM
      have : a ≤ b := by linarith
      exact le_antisymm this hab
  · intro heq
    rw [heq]
    constructor
    · have : min b b = b := min_self b
      rw [this]; linarith
    · have : max b b = b := max_self b
      rw [this]; linarith

/-- Witness for C9: the amended theorem applied at the concrete inputs of
the counterexample. -/
theorem claim_C9_witness :
    (Ity.centre_of_planet_coefficients_interp [1] [0] 65 (65 - 0.05)
        (65 - 0.10)).getD 0 0 =
      2 * ([1] : List ℝ).getD 0 0 - ([0] : List ℝ).getD 0 0 :=
  (claim_C9_interp_amended [1] [0] 65 (65 - 0.05) (65 - 0.10) 0 (by norm_num)
    (by norm_num) (by norm_num)).1

/-- **C10** (confirmed).  When the ray-tracing collaborator reports no
qualifying arrival (none within 1e-4 degrees of the requested distance),
`get_taup_arrival` raises `PhaseError(phase, vel_model)`, and the
coefficients computation on a (phase, distance, depth, index) request
propagates that error to the caller: it never returns any coefficient list,
in particular never zero coefficients. -/
theorem claim_C10_no_arrival_propagates (phase : String)
    (distance source_depth : ℝ) (idx : ℕ) (traced : List Ity.TaupArrivalR)
    (vm : String) (coeffs : Ity.TaupArrivalR → List ℝ)
    (h : ∀ x ∈ traced, ¬(|x.purist_distance - distance| < 0.0001)) :
    Ity.get_taup_arrival phase distance source_depth idx traced vm =
      Except.error ⟨phase, vm⟩ ∧
    Ity.coefficientsFromListSpec phase distance source_depth idx traced vm
        coeffs = Except.error ⟨phase, vm⟩ ∧
    ∀ c : List ℝ,
      Ity.coefficientsFromListSpec phase distance source_depth idx traced vm
        coeffs ≠ Except.ok c := by
  have hfilter : traced.filter (fun x =>
      decide (|x.purist_distance - distance| < 0.0001)) = [] := by
    rw [List.filter_eq_nil_iff]
    intro a ha
    simpa using h a ha
  have hget : Ity.get_taup_arrival phase distance source_depth idx traced vm =
      Except.error ⟨phase, vm⟩ := by
    unfold Ity.get_taup_arrival
    rw [hfilter]
    rfl
  refine ⟨hget, ?_, ?_⟩
  · unfold Ity.coefficientsFromListSpec
    rw [hget]
    rfl
  · intro c hc
    unfold Ity.coefficientsFromListSpec at hc
    rw [hget] at hc
    exact Except.noConfusion hc

/-- Witness for C10: a single traced arrival at purist distance 100 degrees
cannot serve a request at 1 degree; the error propagates. -/
theorem claim_C10_witness :
    Ity.get_taup_arrival "PKP" 1 0 0 [⟨100, 100, 5⟩] "prem" =
      Except.error ⟨"PKP", "prem"⟩ :=
  (claim_C10_no_arrival_propagates "PKP" 1 0 0 [⟨100, 100, 5⟩] "prem"
    (fun _ => [0, 0, 0])
    (by
      intro x hx
      simp only [List.mem_singleton] at hx
      subst hx
      norm_num)).1

lemma headD_drop (l : List PathPoint) (n : ℕ) :
    (l.drop n).headD dp = l.getD n dp := by
  induction l generalizing n with
  | nil => cases n <;> simp
  | cons x xs ih =>
    cases n with
    | zero => simp
    | succ m => simp only [List.drop_succ_cons, List.getD_cons_succ]; exact ih m

lemma headD_take (l : List PathPoint) (n : ℕ) (hn : 0 < n) :
    (l.take n).headD dp = l.headD dp := by
  cases l with
  | nil => simp
  | cons x xs =>
    cases n with
    | zero => omega
    | succ m => simp

lemma getD_zero_headD {α : Type} (l : List α) (d : α) :
    l.getD 0 d = l.headD d := by
  cases l <;> simp

lemma getLastD_eq_getD_pred {α : Type} (l : List α) (d : α) :
    l.getLastD d = l.getD (l.length - 1) d := by
  rw [List.getLastD_eq_getLast?, List.getLast?_eq_getElem?,
    List.getD_eq_getElem?_getD]

lemma take_append_headD_drop (pts : List PathPoint) (i : ℕ)
    (h : i < pts.length) :
    pts.take i ++ [(pts.drop i).headD dp] = pts.take (i + 1) := by
  induction pts generalizing i with
  | nil => simp at h
  | cons x xs ih =>
    cases i with
    | zero => simp
    | succ n =>
      simp only [List.take_succ_cons, List.drop_succ_cons, List.cons_append,
        List.cons.injEq, true_and]
      exact ih n (by simpa using h)

lemma npSplit_ne_nil (pts : List PathPoint) (idx : List ℕ) :
    npSplit pts idx ≠ [] := by
  cases idx <;> simp [npSplit]

lemma npSplit_headD_headD (q : List PathPoint) (idx : List ℕ)
    (h : ∀ j ∈ idx, 0 < j) :
    ((npSplit q idx).headD []).headD dp = q.headD dp := by
  cases idx with
  | nil => simp [npSplit]
  | cons k rest =>
    have hk : 0 < k := h k (List.mem_cons_self k rest)
    simp only [npSplit, List.headD_cons]
    exact headD_take q k hk

lemma getD_map_sub (rest : List ℕ) (i j : ℕ) (h : j < rest.length) :
    (rest.map (fun x => x - i)).getD j 0 = rest.getD j 0 - i := by
  rw [List.getD_eq_getElem?_getD, List.getElem?_map,
    List.getD_eq_getElem?_getD, List.getElem?_eq_getElem h]
  rfl

lemma getD_mem_of_lt {α : Type} (l : List α) (d : α) (k : ℕ)
    (h : k < l.length) : l.getD k d ∈ l := by
  rw [List.getD_eq_getElem l d h]
  exact List.getElem_mem h

lemma seg_headD (pts : List PathPoint) (a b : ℕ) (hab : a ≤ b) :
    (seg pts a b).headD dp = pts.getD a dp := by
  unfold seg
  rw [headD_take _ _ (by omega : 0 < b + 1 - a), headD_drop]

lemma seg_getLastD (pts : List PathPoint) (a b : ℕ) (hab : a ≤ b)
    (hb : b < pts.length) :
    (seg pts a b).getLastD dp = pts.getD b dp := by
  have hidx : a + (b - a) = b := by omega
  unfold seg
  rw [getLastD_eq_getD_pred]
  have hlen : ((pts.drop a).take (b + 1 - a)).length = b + 1 - a := by
    rw [List.length_take, List.length_drop]
    omega
  rw [hlen]
  have h1 : b + 1 - a - 1 = b - a := by omega
  rw [h1, List.getD_eq_getElem?_getD,
    List.getElem?_take_of_lt (by omega : b - a < b + 1 - a),
    List.getElem?_drop, hidx, List.getD_eq_getElem?_getD]

lemma seg_drop_shift (pts : List PathPoint) (i a b : ℕ) (hia : i ≤ a)
    (hib : i ≤ b) :
    seg (pts.drop i) (a - i) (b - i) = seg pts a b := by
  unfold seg
  have h1 : i + (a - i) = a := by omega
  have h2 : b - i + 1 - (a - i) = b + 1 - a := by omega
  rw [List.drop_drop, h1, h2]

lemma dpathsIdx_cons (pts : List PathPoint) (i : ℕ) (rest : List ℕ)
    (hrest : ∀ j ∈ rest, i < j) :
    dpathsIdx pts (i :: rest) =
      (pts.take i ++ [(pts.drop i).headD dp]) ::
        dpathsIdx (pts.drop i) (rest.map fun j => j - i) := by
  have hpos : ∀ j ∈ rest.map (fun j => j - i), 0 < j := by
    intro j hj
    simp only [List.mem_map] at hj
    obtain ⟨j0, hj0, rfl⟩ := hj
    have := hrest j0 hj0
    omega
  have hrec : npSplit pts (i :: rest) =
      pts.take i :: npSplit (pts.drop i) (rest.map fun j => j - i) := by
    simp [npSplit]
  obtain ⟨c, L', hL⟩ := List.exists_cons_of_ne_nil
    (npSplit_ne_nil (pts.drop i) (rest.map fun j => j - i))
  have hhead : c.headD dp = (pts.drop i).headD dp := by
    have h2 := npSplit_headD_headD (pts.drop i) (rest.map fun j => j - i) hpos
    rw [hL] at h2
    simpa using h2
  unfold dpathsIdx
  simp only [hrec, hL]
  have hdl : (pts.take i :: c :: L').dropLast =
      pts.take i :: (c :: L').dropLast := rfl
  rw [hdl, List.tail_cons, List.tail_cons, List.zipWith_cons_cons, hhead]

lemma dpathsIdx_getD_aux : ∀ (n : ℕ) (idx : List ℕ) (pts : List PathPoint),
    idx.length = n →
    (∀ j ∈ idx, 0 < j ∧ j < pts.length) → idx.Pairwise (· < ·) →
    (dpathsIdx pts idx).length = idx.length ∧
    ∀ k, k < idx.length →
      (dpathsIdx pts idx).getD k [] =
        seg pts (if k = 0 then 0 else idx.getD (k - 1) 0) (idx.getD k 0) := by
  intro n
  induction n with
  | zero =>
    intro idx pts hlen _ _
    rw [List.length_eq_zero] at hlen
    subst hlen
    refine ⟨by simp [dpathsIdx, npSplit], ?_⟩
    intro k hk
    exact absurd hk (Nat.not_lt_zero k)
  | succ n ihn =>
    intro idx pts hlen hb hp
    cases idx with
    | nil => simp at hlen
    | cons i rest =>
      obtain ⟨hi, hil⟩ := hb i (List.mem_cons_self i rest)
      have hcp := List.pairwise_cons.mp hp
      have hrest_gt : ∀ j ∈ rest, i < j := hcp.1
      have hcons := dpathsIdx_cons pts i rest hrest_gt
      have hb' : ∀ j ∈ rest.map (fun j => j - i),
          0 < j ∧ j < (pts.drop i).length := by
        intro j hj
        simp only [List.mem_map] at hj
        obtain ⟨j0, hj0, rfl⟩ := hj
        have h1 := hrest_gt j0 hj0
        have h2 := (hb j0 (List.mem_cons_of_mem i hj0)).2
        rw [List.length_drop]
        omega
      have hp' : (rest.map (fun j => j - i)).Pairwise (· < ·) := by
        rw [List.pairwise_map]
        refine List.Pairwise.imp_of_mem ?_ hcp.2
        intro a b ha _ hab
        have := hrest_gt a ha
        omega
      have hlen' : (rest.map (fun j => j - i)).length = n := by
        rw [List.length_map]
        simp only [List.length_cons] at hlen
        omega
      obtain ⟨ihlen, ihget⟩ := ihn (rest.map fun j => j - i) (pts.drop i)
        hlen' hb' hp'
      rw [hcons]
      constructor
      · simp only [List.length_cons, ihlen, List.length_map]
      · intro k hk
        cases k with
        | zero =>
          simp only [List.getD_cons_zero]
          rw [take_append_headD_drop pts i hil]
          simp only [if_true]
          unfold seg
          simp
        | succ k' =>
          simp only [List.getD_cons_succ]
          have hk' : k' < rest.length := by
            simp only [List.length_cons] at hk
            omega
          rw [ihget k' (by rw [List.length_map]; exact hk')]
          have hcur : (rest.map (fun j => j - i)).getD k' 0 =
              rest.getD k' 0 - i := getD_map_sub rest i k' hk'
          have hbmem : rest.getD k' 0 ∈ rest := getD_mem_of_lt rest 0 k' hk'
          have hib : i ≤ rest.getD k' 0 := le_of_lt (hrest_gt _ hbmem)
          by_cases hk0 : k' = 0
          · subst hk0
            rw [if_pos rfl, if_neg (Nat.succ_ne_zero 0)]
            simp only [Nat.add_sub_cancel, List.getD_cons_zero]
            rw [hcur]
            have hsh := seg_drop_shift pts i i (rest.getD 0 0) le_rfl hib
            rw [Nat.sub_self] at hsh
            exact hsh
          · rw [if_neg hk0, if_neg (Nat.succ_ne_zero k')]
            rw [getD_map_sub rest i (k' - 1) (by omega), hcur]
            simp only [Nat.add_sub_cancel]
            have hprev : (i :: rest).getD k' 0 = rest.getD (k' - 1) 0 := by
              obtain ⟨m, rfl⟩ := Nat.exists_eq_succ_of_ne_zero hk0
              simp [List.getD_cons_succ]
            rw [hprev]
            have hpmem : rest.getD (k' - 1) 0 ∈ rest :=
              getD_mem_of_lt rest 0 (k' - 1) (by omega)
            have hia : i ≤ rest.getD (k' - 1) 0 := le_of_lt (hrest_gt _ hpmem)
            exact seg_drop_shift pts i _ _ hia hib

lemma dpathsIdx_getD (idx : List ℕ) (pts : List PathPoint)
    (hb : ∀ j ∈ idx, 0 < j ∧ j < pts.length) (hp : idx.Pairwise (· < ·)) :
    (dpathsIdx pts idx).length = idx.length ∧
    ∀ k, k < idx.length →
      (dpathsIdx pts idx).getD k [] =
        seg pts (if k = 0 then 0 else idx.getD (k - 1) 0) (idx.getD k 0) :=
  dpathsIdx_getD_aux idx.length idx pts rfl hb hp

lemma getD_last_mem (l : List ℕ) (h : l ≠ []) :
    l.getD (l.length - 1) 0 ∈ l := by
  have hlt : l.length - 1 < l.length := by
    cases l with
    | nil => exact absurd rfl h
    | cons x xs => simp
  exact getD_mem_of_lt l 0 (l.length - 1) hlt

lemma pairwise_le_getD_last (l : List ℕ) (hp : l.Pairwise (· < ·)) :
    ∀ x ∈ l, x ≤ l.getD (l.length - 1) 0 := by
  induction l with
  | nil => simp
  | cons i rest ih =>
    intro x hx
    have hcp := List.pairwise_cons.mp hp
    rcases List.mem_cons.mp hx with rfl | hx'
    · cases rest with
      | nil => simp
      | cons r t =>
        have hred : (x :: r :: t).getD ((x :: r :: t).length - 1) 0 =
            (r :: t).getD ((r :: t).length - 1) 0 := by
          simp [List.getD_cons_succ]
        rw [hred]
        exact le_of_lt (hcp.1 _ (getD_last_mem (r :: t) (by simp)))
    · cases rest with
      | nil => simp at hx'
      | cons r t =>
        have hred : (i :: r :: t).getD ((i :: r :: t).length - 1) 0 =
            (r :: t).getD ((r :: t).length - 1) 0 := by
          simp [List.getD_cons_succ]
        rw [hred]
        exact ih hcp.2 x hx'

lemma pairwise_getD_lt (l : List ℕ) (hp : l.Pairwise (· < ·)) (k : ℕ)
    (hk : k + 1 < l.length) : l.getD k 0 < l.getD (k + 1) 0 := by
  rw [List.getD_eq_getElem l 0 (by omega), List.getD_eq_getElem l 0 hk]
  exact List.pairwise_iff_getElem.mp hp k (k + 1) (by omega) hk (by omega)

lemma splitIdx_mem (pts : List PathPoint) (discs : List ℝ) (j : ℕ) :
    j ∈ splitIdx pts discs ↔
      (j < pts.length ∧ j ≠ 0 ∧ (pts.getD j dp).depth ∈ discs) := by
  unfold splitIdx
  simp only [List.mem_filter, List.mem_range, decide_eq_true_eq]

lemma splitIdx_pairwise (pts : List PathPoint) (discs : List ℝ) :
    (splitIdx pts discs).Pairwise (· < ·) :=
  List.Pairwise.filter _ (List.pairwise_lt_range _)

/-- **C6** (corrected).  The `split_ray_path` segmenter splits exactly at
the path's first and last point and at every interior point whose depth
equals a model discontinuity depth — NOT at the bottoming depth (the claim's
bottoming-depth boundary exists only in the `src/ellipticity/tools.py`
`ray_path` variant); every interior boundary point appears in both
neighbouring segments, so no continuity is lost at a join.  Conjuncts:
split-point characterisation, one segment per split point, each segment is
the contiguous slice between consecutive split points (both included), the
first segment starts at the first path point, the last segment ends at the
last path point, and adjacent segments share their boundary point, which is
a discontinuity-depth point. -/
theorem claim_C6_segmenter_amended (pts : List PathPoint) (discs : List ℝ)
    (h2 : 2 ≤ pts.length) (hlast : (pts.getLastD dp).depth ∈ discs) :
    (∀ j : ℕ, j ∈ splitIdx pts discs ↔
      (j < pts.length ∧ j ≠ 0 ∧ (pts.getD j dp).depth ∈ discs)) ∧
    (dpathsOf pts discs).length = (splitIdx pts discs).length ∧
    (∀ k, k < (splitIdx pts discs).length →
      (dpathsOf pts discs).getD k [] =
        seg pts (if k = 0 then 0 else (splitIdx pts discs).getD (k - 1) 0)
          ((splitIdx pts discs).getD k 0)) ∧
    (0 < (dpathsOf pts discs).length →
      ((dpathsOf pts discs).getD 0 []).headD dp = pts.headD dp) ∧
    (0 < (dpathsOf pts discs).length →
      ((dpathsOf pts discs).getD ((dpathsOf pts discs).length - 1)
        []).getLastD dp = pts.getLastD dp) ∧
    (∀ k, k + 1 < (dpathsOf pts discs).length →
      ((dpathsOf pts discs).getD k []).getLastD dp =
        ((dpathsOf pts discs).getD (k + 1) []).headD dp ∧
      ((dpathsOf pts discs).getD k []).getLastD dp =
        pts.getD ((splitIdx pts discs).getD k 0) dp) := by
  have hmemc := splitIdx_mem pts discs
  have hbnds : ∀ j ∈ splitIdx pts discs, 0 < j ∧ j < pts.length := by
    intro j hj
    obtain ⟨hj1, hj2, _⟩ := (hmemc j).mp hj
    exact ⟨Nat.pos_of_ne_zero hj2, hj1⟩
  have hpw := splitIdx_pairwise pts discs
  obtain ⟨hlen, hget⟩ := dpathsIdx_getD (splitIdx pts discs) pts hbnds hpw
  have hlen' : (dpathsOf pts discs).length = (splitIdx pts discs).length :=
    hlen
  have hget' : ∀ k, k < (splitIdx pts discs).length →
      (dpathsOf pts discs).getD k [] =
        seg pts (if k = 0 then 0 else (splitIdx pts discs).getD (k - 1) 0)
          ((splitIdx pts discs).getD k 0) := hget
  -- bound and order facts about a generic split index
  have hblt : ∀ k, k < (splitIdx pts discs).length →
      (splitIdx pts discs).getD k 0 < pts.length := by
    intro k hk
    exact (hbnds _ (getD_mem_of_lt _ 0 k hk)).2
  have hprev_le : ∀ k, k < (splitIdx pts discs).length →
      (if k = 0 then 0 else (splitIdx pts discs).getD (k - 1) 0) ≤
        (splitIdx pts discs).getD k 0 := by
    intro k hk
    by_cases hk0 : k = 0
    · simp [hk0]
    · rw [if_neg hk0]
      have hkk : (k - 1) + 1 = k := by omega
      have := pairwise_getD_lt (splitIdx pts discs) hpw (k - 1)
        (by omega)
      rw [hkk] at this
      exact le_of_lt this
  refine ⟨hmemc, hlen', hget', ?_, ?_, ?_⟩
  · intro hpos
    rw [hlen'] at hpos
    rw [hget' 0 hpos, if_pos rfl]
    rw [seg_headD pts 0 _ (Nat.zero_le _)]
    exact getD_zero_headD pts dp
  · intro hpos
    rw [hlen'] at hpos
    set L := (splitIdx pts discs).length with hL
    have hmem_last : pts.length - 1 ∈ splitIdx pts discs := by
      refine (hmemc _).mpr ⟨by omega, by omega, ?_⟩
      rw [← getLastD_eq_getD_pred]
      exact hlast
    have hb_le : ∀ x ∈ splitIdx pts discs, x ≤ pts.length - 1 := by
      intro x hx
      have := (hbnds x hx).2
      omega
    have hlast_idx : (splitIdx pts discs).getD (L - 1) 0 = pts.length - 1 :=
      le_antisymm (hb_le _ (getD_last_mem _ (List.ne_nil_of_mem hmem_last)))
        (pairwise_le_getD_last _ hpw _ hmem_last)
    rw [hlen', hget' (L - 1) (by omega)]
    rw [seg_getLastD pts _ _ (hprev_le (L - 1) (by omega))
      (by rw [hlast_idx]; omega)]
    rw [hlast_idx, ← getLastD_eq_getD_pred]
  · intro k hk1
    rw [hlen'] at hk1
    have hconsec := pairwise_getD_lt (splitIdx pts discs) hpw k hk1
    have hnext : (dpathsOf pts discs).getD (k + 1) [] =
        seg pts ((splitIdx pts discs).getD k 0)
          ((splitIdx pts discs).getD (k + 1) 0) := by
      rw [hget' (k + 1) hk1, if_neg (Nat.succ_ne_zero k), Nat.add_sub_cancel]
    have hlastk : ((dpathsOf pts discs).getD k []).getLastD dp =
        pts.getD ((splitIdx pts discs).getD k 0) dp := by
      rw [hget' k (by omega)]
      exact seg_getLastD pts _ _ (hprev_le k (by omega)) (hblt k (by omega))
    refine ⟨?_, hlastk⟩
    rw [hlastk, hnext, seg_headD pts _ _ (le_of_lt hconsec)]

/-- **C6 counterexample.**  A three-point path bottoming at depth 200 km
(an interior point, not a model discontinuity; the model's only
discontinuity depth is 0) is kept as a single segment by `split_ray_path`'s
segmentation: the bottoming point is not a segment boundary (the segment
boundaries have depths 100 and 0), contradicting the claim that the
segmenter splits at every point whose depth equals the bottoming depth. -/
theorem claim_C6_counterexample :
    dpathsOf [wq0, wq1, wq2] [0] = [[wq0, wq1, wq2]] ∧
    ([wq0, wq1, wq2].map PathPoint.depth).foldr max 0 = 200 ∧
    (dpathsOf [wq0, wq1, wq2] [0]).map (fun s => (s.headD dp).depth) =
      [100] ∧
    (dpathsOf [wq0, wq1, wq2] [0]).map (fun s => (s.getLastD dp).depth) =
      [0] := by
  have hidx : splitIdx [wq0, wq1, wq2] [0] = [2] := by
    unfold splitIdx wq0 wq1 wq2
    norm_num [List.range_succ, List.filter_append]
  have hnp : npSplit [wq0, wq1, wq2] [2] = [[wq0, wq1], [wq2]] := by
    simp [npSplit]
  have hdps : dpathsOf [wq0, wq1, wq2] [0] = [[wq0, wq1, wq2]] := by
    unfold dpathsOf dpathsIdx
    rw [hidx, hnp]
    simp
  refine ⟨hdps, ?_, ?_, ?_⟩
  · unfold wq0 wq1 wq2
    norm_num [max_def]
  · rw [hdps]
    simp [wq0]
  · rw [hdps]
    simp [wq2]

/-- Witness for C6: the amended theorem applied to the concrete three-point
path over the one-discontinuity model. -/
theorem claim_C6_witness :
    (dpathsOf [wq0, wq1, wq2] [0]).length =
      (splitIdx [wq0, wq1, wq2] [0]).length ∧
    ((dpathsOf [wq0, wq1, wq2] [0]).getD 0 []).headD dp =
      ([wq0, wq1, wq2] : List PathPoint).headD dp := by
  have h := claim_C6_segmenter_amended [wq0, wq1, wq2] [0] (by norm_num)
    (by simp [wq0, wq1, wq2])
  have hmem : 2 ∈ splitIdx [wq0, wq1, wq2] [0] :=
    (h.1 2).mpr ⟨by norm_num, by norm_num, by simp [wq0, wq1, wq2]⟩
  have hpos : 0 < (dpathsOf [wq0, wq1, wq2] [0]).length := by
    rw [h.2.1]
    exact List.length_pos.mpr (List.ne_nil_of_mem hmem)
  exact ⟨h.2.1, h.2.2.2.1 hpos⟩

lemma getLastD_congr {α : Type} (l : List α) (h : l ≠ []) (d1 d2 : α) :
    l.getLastD d1 = l.getLastD d2 := by
  cases l with
  | nil => exact absurd rfl h
  | cons a t => rfl

lemma getLastD_mem {α : Type} (l : List α) (d : α) (h : l ≠ []) :
    l.getLastD d ∈ l := by
  rw [getLastD_eq_getD_pred]
  apply getD_mem_of_lt
  cases l with
  | nil => exact absurd rfl h
  | cons a t => simp

lemma map_getLastD {α β : Type} (f : α → β) : ∀ (l : List α), l ≠ [] →
    ∀ (d : β) (d' : α), (l.map f).getLastD d = f (l.getLastD d') := by
  intro l
  induction l with
  | nil => intro h; exact absurd rfl h
  | cons a t ih =>
    intro _ d d'
    cases t with
    | nil => rfl
    | cons b t' =>
      show (List.map f (b :: t')).getLastD (f a) = f ((b :: t').getLastD a)
      exact ih (by simp) (f a) a

lemma scanl_add_getLastD : ∀ (l : List ℝ) (a : ℝ),
    (List.scanl (· + ·) a l).getLastD 0 = a + l.sum := by
  intro l
  induction l with
  | nil => intro a; simp [List.scanl]
  | cons x t ih =>
    intro a
    have hne : List.scanl (· + ·) (a + x) t ≠ [] := by
      intro h
      have := congrArg List.length h
      simp [List.length_scanl] at this
    show (a :: List.scanl (· + ·) (a + x) t).getLastD 0 = a + (x :: t).sum
    rw [List.getLastD_cons, getLastD_congr _ hne a 0, ih (a + x),
      List.sum_cons]
    ring

lemma cumsum_getLastD (l : List ℝ) : (cumsum l).getLastD 0 = l.sum := by
  cases l with
  | nil => rfl
  | cons x t =>
    unfold cumsum
    show (List.scanl (· + ·) (0 + x) t).getLastD 0 = (x :: t).sum
    rw [scanl_add_getLastD t (0 + x), List.sum_cons]
    ring

lemma zipWith_pos (f : ℝ → ℝ → ℝ) : ∀ (l1 l2 : List ℝ),
    (∀ x ∈ l1, ∀ y ∈ l2, 0 < f x y) → ∀ z ∈ List.zipWith f l1 l2, 0 < z := by
  intro l1
  induction l1 with
  | nil => simp
  | cons x t1 ih =>
    intro l2 hf z hz
    cases l2 with
    | nil => simp at hz
    | cons y t2 =>
      rw [List.zipWith_cons_cons] at hz
      rcases List.mem_cons.mp hz with rfl | hz'
      · exact hf x (by simp) y (by simp)
      · exact ih t2 (fun u hu v hv =>
          hf u (List.mem_cons_of_mem x hu) v (List.mem_cons_of_mem y hv)) z hz'

lemma zipWith_sub_pos : ∀ (l : List ℝ) (b : ℝ),
    (b :: l).Chain' (· < ·) →
    ∀ z ∈ List.zipWith (fun x y => x - y) l (b :: l), 0 < z := by
  intro l
  induction l with
  | nil => simp
  | cons x t ih =>
    intro b hch z hz
    rw [List.chain'_cons] at hch
    rw [List.zipWith_cons_cons] at hz
    rcases List.mem_cons.mp hz with rfl | hz'
    · linarith [hch.1]
    · exact ih x hch.2 z hz'

lemma chain'_and_pos : ∀ (l : List ℝ), (∀ x ∈ l, 0 < x) →
    l.Chain' (· < ·) → l.Chain' (fun x y => 0 < x ∧ x < y) := by
  intro l
  induction l with
  | nil => simp
  | cons x t ih =>
    intro hpos hch
    cases t with
    | nil => simp
    | cons y t' =>
      rw [List.chain'_cons] at hch ⊢
      exact ⟨⟨hpos x (by simp), hch.1⟩,
        ih (fun z hz => hpos z (List.mem_cons_of_mem x hz)) hch.2⟩

/-- **C8** (confirmed).  For every velocity model with positive density
(strictly decreasing layer-top depths above the surface radius) and every
positive rotation rate (finite positive length of day), `model_epsilon`
sets the surface epsilon to `5·h_a / (2·η_surface + 4)` with
`h_a = a³Ω²/(G·M_total)`, this surface value is strictly positive, and the
stored epsilon at the centre of the planet equals the epsilon at the first
nonzero-radius sample point. -/
theorem claim_C8_profile_builder (a lod : ℝ) (tdk td bd : List ℝ)
    (hne : tdk ≠ []) (hlent : td.length = tdk.length)
    (hlenb : bd.length = tdk.length)
    (hdep : ∀ d ∈ tdk, d * 1000 < a) (hmono : tdk.Chain' (· > ·))
    (htd : ∀ x ∈ td, 0 < x) (hbd : ∀ x ∈ bd, 0 < x)
    (hlod : 0 < lod) (ha0 : 0 < a) :
    me_epsilona a lod tdk td bd =
      5 * (a ^ 3 * (2 * Real.pi / lod) ^ 2 /
        (gConst * me_total_mass a tdk td bd)) /
      (2 * (me_radau a tdk td bd).getLastD 0 + 4) ∧
    0 < me_epsilona a lod tdk td bd ∧
    (me_epsilon a lod tdk td bd).getLastD 0 = me_epsilona a lod tdk td bd ∧
    (me_epsilon_centre a lod tdk td bd).getD 0 0 =
      (me_epsilon_centre a lod tdk td bd).getD 1 0 := by
  have hradii_pos : ∀ x ∈ me_top_radius a tdk, 0 < x := by
    intro x hx
    unfold me_top_radius at hx
    obtain ⟨d, hd, rfl⟩ := List.mem_map.mp hx
    have := hdep d hd
    linarith
  have hradii_ch : (me_top_radius a tdk).Chain' (· < ·) := by
    unfold me_top_radius
    rw [List.chain'_map]
    refine hmono.imp ?_
    intro d1 d2 h
    dsimp only
    linarith
  have hcomb := chain'_and_pos _ hradii_pos hradii_ch
  have htv_ch : ((0 : ℝ) :: (me_top_radius a tdk).map
      (fun r => (4.0 / 3.0) * Real.pi * r ^ 3)).Chain' (· < ·) := by
    rw [List.chain'_cons']
    constructor
    · intro h hh
      rw [List.head?_map] at hh
      obtain ⟨r0, hr0, rfl⟩ := Option.map_eq_some.mp hh
      have hr0m : r0 ∈ me_top_radius a tdk := List.mem_of_mem_head? hr0
      have := hradii_pos r0 hr0m
      positivity
    · rw [List.chain'_map]
      refine hcomb.imp ?_
      intro r1 r2 hr
      dsimp only
      obtain ⟨h0, hlt⟩ := hr
      have hcube : r1 ^ 3 < r2 ^ 3 :=
        pow_lt_pow_left₀ hlt (le_of_lt h0) (by norm_num)
      have hpi : (0 : ℝ) < (4.0 / 3.0) * Real.pi := by positivity
      exact mul_lt_mul_of_pos_left hcube hpi
  have hdv_pos : ∀ z ∈ me_d_volume a tdk, 0 < z := by
    intro z hz
    unfold me_d_volume at hz
    exact zipWith_sub_pos _ 0 htv_ch z hz
  have hds_pos : ∀ z ∈ List.zipWith (fun b t => b * 1000 + t * 1000) bd td,
      0 < z := by
    refine zipWith_pos _ bd td ?_
    intro x hx y hy
    have h1 := hbd x hx
    have h2 := htd y hy
    linarith
  have hdm_pos : ∀ z ∈ me_d_mass a tdk td bd, 0 < z := by
    intro z hz
    unfold me_d_mass at hz
    refine zipWith_pos _ _ _ ?_ z hz
    intro x hx y hy
    have h1 := hds_pos x hx
    have h2 := hdv_pos y hy
    have h3 : (0 : ℝ) < 0.5 * x := by linarith
    exact mul_pos h3 h2
  have hdm_ne : me_d_mass a tdk td bd ≠ [] := by
    intro h
    have hlen := congrArg List.length h
    unfold me_d_mass me_d_volume me_top_radius at hlen
    simp only [List.length_zipWith, List.length_map, List.length_cons,
      List.length_nil, hlent, hlenb] at hlen
    have : tdk.length = 0 := by omega
    exact hne (List.length_eq_zero.mp this)
  have hM : 0 < me_total_mass a tdk td bd := by
    unfold me_total_mass me_mass
    rw [cumsum_getLastD]
    exact List.sum_pos _ hdm_pos hdm_ne
  have hha : 0 < me_ha a lod tdk td bd := by
    unfold me_ha
    apply div_pos
    · apply mul_pos (pow_pos ha0 3)
      apply pow_pos
      apply div_pos
      · linarith [Real.pi_pos]
      · exact hlod
    · apply mul_pos _ hM
      unfold gConst
      norm_num
  have hden : 0 < 2 * (me_radau a tdk td bd).getLastD 0 + 4 := by
    by_cases hre : me_radau a tdk td bd = []
    · rw [hre]
      norm_num
    · have hmem := getLastD_mem _ (0 : ℝ) hre
      unfold me_radau at hmem ⊢
      obtain ⟨y, _, hval⟩ := List.mem_map.mp hmem
      rw [← hval]
      nlinarith [sq_nonneg (1 - 3 * y / 2)]
  have heps_pos : 0 < me_epsilona a lod tdk td bd := by
    unfold me_epsilona
    exact div_pos (by linarith) hden
  have hraw_ne : me_epsilon_raw a tdk td bd ≠ [] := by
    intro h
    have hlen := congrArg List.length h
    unfold me_epsilon_raw cumtrapzX at hlen
    simp [List.length_scanl] at hlen
  have hlast_pos : 0 < (me_epsilon_raw a tdk td bd).getLastD 0 := by
    have hmem := getLastD_mem _ (0 : ℝ) hraw_ne
    unfold me_epsilon_raw at hmem ⊢
    rw [List.mem_map] at hmem
    obtain ⟨c, _, hc⟩ := hmem
    rw [← hc]
    exact Real.exp_pos c
  have h3 : (me_epsilon a lod tdk td bd).getLastD 0 =
      me_epsilona a lod tdk td bd := by
    unfold me_epsilon
    rw [map_getLastD _ _ hraw_ne 0 0]
    rw [mul_div_assoc, div_self (ne_of_gt hlast_pos), mul_one]
  have heps_ne : me_epsilon a lod tdk td bd ≠ [] := by
    unfold me_epsilon
    intro h
    rw [List.map_eq_nil_iff] at h
    exact hraw_ne h
  refine ⟨rfl, heps_pos, h3, ?_⟩
  unfold me_epsilon_centre
  rw [List.getD_cons_zero, List.getD_cons_succ, getD_zero_headD]

/-- Witness for C8: a two-layer model (layer tops at depths 1 km and 0 km,
planet radius 2000 m, unit densities, one-day rotation). -/
theorem claim_C8_witness :
    0 < me_epsilona 2000 86400 [1, 0] [1, 1] [1, 1] ∧
    (me_epsilon_centre 2000 86400 [1, 0] [1, 1] [1, 1]).getD 0 0 =
      (me_epsilon_centre 2000 86400 [1, 0] [1, 1] [1, 1]).getD 1 0 := by
  have h := claim_C8_profile_builder 2000 86400 [1, 0] [1, 1] [1, 1]
    (by simp) (by simp) (by simp)
    (by
      intro d hd
      rcases List.mem_cons.mp hd with rfl | hd'
      · norm_num
      · simp only [List.mem_singleton] at hd'
        subst hd'
        norm_num)
    (by
      rw [List.chain'_cons]
      exact ⟨by norm_num, List.chain'_singleton 0⟩)
    (by
      intro x hx
      rcases List.mem_cons.mp hx with rfl | hx'
      · norm_num
      · simp only [List.mem_singleton] at hx'
        subst hx'
        norm_num)
    (by
      intro x hx
      rcases List.mem_cons.mp hx with rfl | hx'
      · norm_num
      · simp only [List.mem_singleton] at hx'
        subst hx'
        norm_num)
    (by norm_num) (by norm_num)
  exact ⟨h.2.1, h.2.2.2⟩

/-- **C1** (confirmed).  For every arrival whose ray does not bottom within
50 m of the planet's centre, `ellipticity_coefficients` returns, for each
order `m ∈ {0,1,2}`, exactly the sum of the ray-path integral contribution
(summed over the split segments) and the discontinuity/boundary
contribution (summed over the included boundary records) of that one ray
path. -/
theorem claim_C1_coefficients_sum (arr : Ity.ArrivalV) (model : Ity.TauModelV)
    (cf : Ity.ArrivalV → Ity.TauModelV → List ℝ)
    (h : ¬((model.radius_of_planet - Ity.botDep arr) * 1000 < 50))
    (m : ℕ) (hm : m < 3) :
    (Ity.ellipticity_coefficients arr model cf).getD m 0 =
      (((Ity.ray_path arr model).1.zip (Ity.ray_path arr model).2).map
        fun pw => Ity.segIntegral arr model pw m).sum +
      (((Ity.idiscsOf arr model).filter fun e => Ity.ynOf arr model e).map
        fun e =>
          Ity.idiscSigma arr model (Ity.ray_path arr model).2 e m).sum := by
  unfold Ity.ellipticity_coefficients
  rw [if_neg h]
  unfold Ity.integral_coefficients Ity.discontinuity_coefficients
  interval_cases m <;> simp

/-- Witness for C1: the concrete diffracted-phase arrival bottoming 5 km
above the centre of the 10 km planet. -/
theorem claim_C1_witness :
    (Ity.ellipticity_coefficients Ity.wArr Ity.wMod
        (fun _ _ => [0, 0, 0])).getD 0 0 =
      (((Ity.ray_path Ity.wArr Ity.wMod).1.zip
          (Ity.ray_path Ity.wArr Ity.wMod).2).map
        fun pw => Ity.segIntegral Ity.wArr Ity.wMod pw 0).sum +
      (((Ity.idiscsOf Ity.wArr Ity.wMod).filter
          fun e => Ity.ynOf Ity.wArr Ity.wMod e).map
        fun e =>
          Ity.idiscSigma Ity.wArr Ity.wMod (Ity.ray_path Ity.wArr Ity.wMod).2
            e 0).sum :=
  claim_C1_coefficients_sum Ity.wArr Ity.wMod (fun _ _ => [0, 0, 0])
    (by
      unfold Ity.botDep Ity.wArr Ity.wMod
      norm_num [max_def])
    0 (by norm_num)

/-- **C7** (confirmed).  In the discontinuity/boundary accumulation, every
boundary record of a diffracted phase sitting on the core-mantle boundary,
and every record whose depth is not a model discontinuity and which is not
the leading source entry (i.e. only the ray's bottoming point), has its
`yn` flag false, and the per-order sums range only over the `yn`-true
records — the excluded records are skipped by the filter, not added as
zero-valued products; moreover every non-source record comes from a path
point whose depth is a model discontinuity or the bottoming depth. -/
theorem claim_C7_boundary_exclusion (arr : Ity.ArrivalV)
    (model : Ity.TauModelV) (paths : List (List PathPoint))
    (wave_paths : List (List Char)) (m : ℕ) (hm : m < 3) :
    ((Ity.discontinuity_coefficients arr model paths wave_paths).getD m 0 =
      (((Ity.idiscsOf arr model).filter fun e => Ity.ynOf arr model e).map
        fun e => Ity.idiscSigma arr model wave_paths e m).sum) ∧
    (∀ e : Ity.IdiscV,
      (Ity.hasDiff arr.name ∧ e.dep = model.cmb_depth * 1000) →
      Ity.ynOf arr model e = false) ∧
    (∀ e : Ity.IdiscV, Ity.round5 (e.dep * 1e-3) ∉ model.discs →
      e.order ≠ 0 → Ity.ynOf arr model e = false) ∧
    (∀ e : Ity.IdiscV, Ity.ynOf arr model e = false →
      e ∉ (Ity.idiscsOf arr model).filter fun e2 => Ity.ynOf arr model e2) ∧
    (∀ e ∈ Ity.idiscsOf arr model, e.order ≠ 0 →
      ∃ pt ∈ arr.path, e.dep = pt.depth * 1000 ∧
        (pt.depth ∈ model.discs ∨ pt.depth = Ity.botDep arr)) := by
  refine ⟨?_, ?_, ?_, ?_, ?_⟩
  · unfold Ity.discontinuity_coefficients
    interval_cases m <;> simp
  · intro e he
    unfold Ity.ynOf
    rw [if_pos he]
  · intro e h1 h2
    unfold Ity.ynOf
    split_ifs with ha hb
    · rfl
    · rcases hb with hb | hb
      · exact absurd hb h1
      · exact absurd hb h2
    · rfl
  · intro e hyn hmem
    rw [List.mem_filter] at hmem
    have h2 := hmem.2
    rw [hyn] at h2
    exact Bool.noConfusion h2
  · intro e he hord
    unfold Ity.idiscsOf at he
    simp only [List.mem_map, List.mem_range] at he
    obtain ⟨d, hd, rfl⟩ := he
    have hd0 : d ≠ 0 := hord
    have hentry_mem : (Ity.idsWithSource arr model).getD d (0, 0, 0) ∈
        Ity.idsWithSource arr model := getD_mem_of_lt _ (0, 0, 0) d hd
    have hin_ids : (Ity.idsWithSource arr model).getD d (0, 0, 0) ∈
        Ity.idsOf arr model := by
      by_cases hc : arr.source_depth = 0 ∨
          arr.source_depth = ((Ity.idsOf arr model).headD (0, 0, 0)).2.1
      · have heq : Ity.idsWithSource arr model = Ity.idsOf arr model := by
          unfold Ity.idsWithSource
          rw [if_pos hc]
        rw [heq] at hentry_mem hd ⊢
        exact hentry_mem
      · have heq : Ity.idsWithSource arr model =
            (0, arr.source_depth, 0) :: Ity.idsOf arr model := by
          unfold Ity.idsWithSource
          rw [if_neg hc]
        obtain ⟨d', rfl⟩ := Nat.exists_eq_succ_of_ne_zero hd0
        rw [heq] at hd ⊢
        rw [List.getD_cons_succ]
        apply getD_mem_of_lt
        simp only [List.length_cons] at hd
        omega
    unfold Ity.idsOf at hin_ids
    rw [List.mem_filterMap] at hin_ids
    obtain ⟨i, hi, hsome⟩ := hin_ids
    rw [List.mem_range] at hi
    by_cases hmem2 : (arr.path.getD i dp).depth ∈ Ity.assessDiscs arr model
    · rw [if_pos hmem2] at hsome
      have hentry_eq := Option.some.inj hsome
      refine ⟨arr.path.getD i dp, getD_mem_of_lt _ dp i hi, ?_, ?_⟩
      · show ((Ity.idsWithSource arr model).getD d (0, 0, 0)).2.1 * 1000 =
          (arr.path.getD i dp).depth * 1000
        rw [← hentry_eq]
      · unfold Ity.assessDiscs at hmem2
        split_ifs at hmem2 with hbb
        · exact Or.inl hmem2
        · rcases List.mem_append.mp hmem2 with hmm | hmm
          · exact Or.inl hmm
          · right
            simpa using hmm
    · rw [if_neg hmem2] at hsome
      exact Option.noConfusion hsome

/-- Witness for C7: on the concrete diffracted-phase arrival, a record on
the core-mantle boundary and the bottoming-only record both get `yn = false`
(so they are skipped), and the surface record of the concrete arrival is a
non-source boundary record arising from a discontinuity-depth path point. -/
theorem claim_C7_witness :
    Ity.ynOf Ity.wArr Ity.wMod ⟨2, 3, 3000, 7000, 0.5, 0⟩ = false ∧
    Ity.ynOf Ity.wArr Ity.wMod ⟨1, 1, 5000, 5000, 0.2, 0⟩ = false ∧
    (∃ pt ∈ Ity.wArr.path, (⟨1, 1, 0, 10000, 0.2, 0⟩ : Ity.IdiscV).dep =
      pt.depth * 1000 ∧
      (pt.depth ∈ Ity.wMod.discs ∨ pt.depth = Ity.botDep Ity.wArr)) := by
  have hthm := claim_C7_boundary_exclusion Ity.wArr Ity.wMod [] [] 0
    (by norm_num)
  have hbot : Ity.botDep Ity.wArr = 5 := by
    unfold Ity.botDep Ity.wArr
    norm_num [max_def]
  have hassess : Ity.assessDiscs Ity.wArr Ity.wMod = [0] := by
    unfold Ity.assessDiscs
    rw [hbot, if_pos]
    · rfl
    · show (5 : ℝ) = (Ity.wArr.path.headD dp).depth
      norm_num [Ity.wArr]
  have hids : Ity.idsOf Ity.wArr Ity.wMod = [(1, 0, 0.2)] := by
    unfold Ity.idsOf
    rw [hassess]
    norm_num [Ity.wArr, List.range_succ, List.filterMap_append,
      List.filterMap_cons]
  have hidsw : Ity.idsWithSource Ity.wArr Ity.wMod =
      [(0, 5, 0), (1, 0, 0.2)] := by
    unfold Ity.idsWithSource
    rw [hids, if_neg]
    · norm_num [Ity.wArr]
    · norm_num [Ity.wArr]
  have hidiscs : Ity.idiscsOf Ity.wArr Ity.wMod =
      [⟨0, 0, 5000, 5000, 0, 0⟩, ⟨1, 1, 0, 10000, 0.2, 0⟩] := by
    unfold Ity.idiscsOf
    rw [hidsw]
    norm_num [List.range_succ, Ity.wArr, Ity.wMod]
  refine ⟨?_, ?_, ?_⟩
  · refine hthm.2.1 _ ⟨?_, ?_⟩
    · show Ity.hasDiff Ity.wArr.name = true
      rfl
    · show (3000 : ℝ) = Ity.wMod.cmb_depth * 1000
      norm_num [Ity.wMod]
  · refine hthm.2.2.1 _ ?_ (by norm_num)
    show Ity.round5 ((5000 : ℝ) * 1e-3) ∉ Ity.wMod.discs
    norm_num [Ity.round5, Ity.wMod]
  · refine hthm.2.2.2.2 _ ?_ (by norm_num)
    rw [hidiscs]
    simp
